import Mathlib

/-!
Shallow embedding of the sparse-matrix repository (two Python variants:
`src/code/sparse_matrix.py`, called `Code` below, and
`src/integral-file/sparse_matrix.py`, called `IntegralFile` below).

Python integers are modelled as `Int`, Python strings as `List Char`, and
Python dictionaries (which preserve insertion order and have unique keys)
as ordered association lists `List ((Int × Int) × Int)`.
-/

namespace SparseSpec

/-- The error kinds of the spec's taxonomy.  In the Python sources,
`FormatError` and `DimensionMismatch` are `ValueError`s and
`IndexOutOfBounds` is an `IndexError`; the claims only distinguish the kind,
not the message, so the payload strings are not modelled. -/
inductive Err where
  | IndexOutOfBounds
  | DimensionMismatch
  | FormatError
deriving DecidableEq, Repr

instance {ε α : Type} [DecidableEq ε] [DecidableEq α] : DecidableEq (Except ε α) :=
  fun a b =>
    match a, b with
    | .error e, .error f =>
      if h : e = f then .isTrue (by rw [h]) else .isFalse (by simp [h])
    | .ok x, .ok y =>
      if h : x = y then .isTrue (by rw [h]) else .isFalse (by simp [h])
    | .error _, .ok _ => .isFalse (by simp)
    | .ok _, .error _ => .isFalse (by simp)

/-- A Python dictionary keyed by coordinate pairs: an insertion-ordered
association list (Python 3.7+ dicts preserve insertion order). -/
abbrev Dict := List ((Int × Int) × Int)

/-- Dictionary lookup, returning `none` when the key is absent
(`key in d` tests `isSome`, `d[key]` is the `some` payload). -/
def dictFind (d : Dict) (k : Int × Int) : Option Int :=
  match d with
  | [] => none
  | e :: rest => if e.1 = k then some e.2 else dictFind rest k

/-- `d.get(key, 0)` in Python. -/
def dictGet (d : Dict) (k : Int × Int) : Int :=
  (dictFind d k).getD 0

/-- `key in d` in Python. -/
def dictMem (d : Dict) (k : Int × Int) : Bool :=
  (dictFind d k).isSome

/-- `d[key] = v` in Python: overwrite in place when the key is present
(keeping its position, as Python dicts do), otherwise append. -/
def dictInsert (d : Dict) (k : Int × Int) (v : Int) : Dict :=
  match d with
  | [] => [(k, v)]
  | e :: rest => if e.1 = k then (k, v) :: rest else e :: dictInsert rest k v

/-- `del d[key]` in Python (dicts hold each key at most once, so removing
every binding of the key is the same as removing its single binding). -/
def dictDelete (d : Dict) (k : Int × Int) : Dict :=
  d.filter (fun e => e.1 ≠ k)

/-- The `SparseMatrix` object: `rows`, `cols` and the coordinate-keyed
dictionary `data` of stored entries. -/
structure SparseMatrix where
  rows : Int
  cols : Int
  data : Dict
deriving DecidableEq, Repr

/-- The data-model invariants of the spec (§3), together with the implicit
dictionary well-formedness (keys are unique): non-negative dimensions,
every stored coordinate in bounds, no stored zero value. -/
def Wf (m : SparseMatrix) : Prop :=
  0 ≤ m.rows ∧ 0 ≤ m.cols ∧
  (∀ e ∈ m.data, 0 ≤ e.1.1 ∧ e.1.1 < m.rows ∧ 0 ≤ e.1.2 ∧ e.1.2 < m.cols ∧ e.2 ≠ 0) ∧
  (m.data.map (fun e => e.1)).Nodup

instance (m : SparseMatrix) : Decidable (Wf m) := by
  unfold Wf; infer_instance

/-- Python's `range(n)` over an `int` argument: `[0, 1, ..., n-1]`,
empty when `n ≤ 0`. -/
def intRange (n : Int) : List Int :=
  (List.range n.toNat).map Int.ofNat

/-- Zero-elided view of a value: `some` exactly when non-zero. -/
def toOpt (x : Int) : Option Int :=
  if x = 0 then none else some x

end SparseSpec

namespace SparseSpec.Code

/-- `src/code/sparse_matrix.py` `getElement`: dictionary lookup defaulting
to `0`; this variant performs no bounds validation. -/
def getElement (m : SparseMatrix) (row col : Int) : Int :=
  dictGet m.data (row, col)

/-- `src/code/sparse_matrix.py` `setElement`: no bounds validation; a zero
value deletes the key when present, a non-zero value inserts/overwrites. -/
def setElement (m : SparseMatrix) (row col value : Int) : SparseMatrix :=
  if value = 0 then
    if dictMem m.data (row, col) then
      { m with data := dictDelete m.data (row, col) }
    else m
  else
    { m with data := dictInsert m.data (row, col) value }

end SparseSpec.Code

namespace SparseSpec.IntegralFile

/-- `src/integral-file/sparse_matrix.py` `getElement`: bounds-validated;
raises `IndexError` out of bounds, else dictionary lookup defaulting to 0. -/
def getElement (m : SparseMatrix) (row col : Int) : Except Err Int :=
  if row < 0 ∨ row ≥ m.rows ∨ col < 0 ∨ col ≥ m.cols then
    .error .IndexOutOfBounds
  else
    .ok (dictGet m.data (row, col))

/-- `src/integral-file/sparse_matrix.py` `setElement`: bounds-validated;
a non-zero value inserts/overwrites, a zero value deletes when present. -/
def setElement (m : SparseMatrix) (row col value : Int) : Except Err SparseMatrix :=
  if row < 0 ∨ row ≥ m.rows ∨ col < 0 ∨ col ≥ m.cols then
    .error .IndexOutOfBounds
  else if value ≠ 0 then
    .ok { m with data := dictInsert m.data (row, col) value }
  else if dictMem m.data (row, col) then
    .ok { m with data := dictDelete m.data (row, col) }
  else
    .ok m

end SparseSpec.IntegralFile

namespace SparseSpec

/-- The sum `A.get(coord) + B.get(coord)` that the spec assigns to each
coordinate of an addition result. -/
def sumAB (A B : SparseMatrix) (p : Int × Int) : Int :=
  dictGet A.data p + dictGet B.data p

/-- The spec's matrix-product value `Σ_k A.get(i,k) * B.get(k,j)` over the
shared dimension `0 ≤ k < A.cols`. -/
def mulSum (A B : SparseMatrix) (i j : Int) : Int :=
  ((intRange A.cols).map (fun k => dictGet A.data (i, k) * dictGet B.data (k, j))).sum

/-- A Python string, modelled as its list of characters. -/
abbrev PyStr := List Char

/-- The ASCII whitespace stripped by Python's `str.strip()`. -/
def isPySpace (c : Char) : Bool :=
  c = ' ' || c = '\t' || c = '\n' || c = '\r' || c = '\x0b' || c = '\x0c'

/-- Python `str.strip()`: drop leading and trailing whitespace. -/
def stripPy (s : PyStr) : PyStr :=
  ((s.dropWhile isPySpace).reverse.dropWhile isPySpace).reverse

/-- Python `str.split(sep)` for a one-character separator: always returns at
least one (possibly empty) piece. -/
def splitOnChar (c : Char) : PyStr → List PyStr
  | [] => [[]]
  | x :: xs =>
    if x = c then [] :: splitOnChar c xs
    else
      match splitOnChar c xs with
      | [] => [[x]]
      | h :: t => (x :: h) :: t

/-- Both loaders read the file's lines, strip each, and keep the non-empty
ones (`[line.strip() for line in f if line.strip()]`). -/
def pyLines (text : PyStr) : List PyStr :=
  ((splitOnChar '\n' text).map stripPy).filter (fun l => l ≠ [])

/-- Accumulating decimal read of a digit string; `none` on a non-digit. -/
def digitsToNat (acc : Nat) : PyStr → Option Nat
  | [] => some acc
  | c :: cs => if c.isDigit then digitsToNat (acc * 10 + (c.toNat - 48)) cs else none

/-- Sign-and-digits part of Python `int(str)`: an optional single `+`/`-`
followed by a non-empty run of decimal digits. -/
def pyIntCore : PyStr → Option Int
  | [] => none
  | c :: rest =>
    if c = '-' then
      if rest = [] then none else (digitsToNat 0 rest).map (fun n => -(Int.ofNat n))
    else if c = '+' then
      if rest = [] then none else (digitsToNat 0 rest).map (fun n => Int.ofNat n)
    else (digitsToNat 0 (c :: rest)).map (fun n => Int.ofNat n)

/-- Model of Python `int(str)`: surrounding whitespace is ignored, then an
optional sign and decimal digits.  (Python additionally permits underscore
digit grouping, which no part of this repository's format produces.) -/
def pyInt (s : PyStr) : Option Int :=
  pyIntCore (stripPy s)

/-- Python `str.isdigit()` restricted to ASCII: non-empty and all digits. -/
def pyIsDigit (s : PyStr) : Bool :=
  !s.isEmpty && s.all Char.isDigit

/-- The decimal digit character for `d < 10`. -/
def digitChar (d : Nat) : Char :=
  Char.ofNat (48 + d)

/-- Decimal rendering of a natural number, as Python's `str`/f-string
formatting produces for a non-negative `int`. -/
def natToStr (n : Nat) : PyStr :=
  if _h : n < 10 then [digitChar n]
  else natToStr (n / 10) ++ [digitChar (n % 10)]
decreasing_by exact Nat.div_lt_self (by omega) (by omega)

/-- Decimal rendering of a Python `int` (leading `-` when negative). -/
def intToStr (n : Int) : PyStr :=
  if n < 0 then '-' :: natToStr (-n).toNat else natToStr n.toNat

/-- The `(row, col, value)` text both writers emit for one stored entry
(the f-string `({row}, {col}, {value})`). -/
def entryLine (e : (Int × Int) × Int) : PyStr :=
  '(' :: (intToStr e.1.1 ++ ", ".toList ++ intToStr e.1.2 ++ ", ".toList ++
          intToStr e.2 ++ [')'])

/-- The serialized text both writers emit: `rows=`/`cols=` header lines then
one `(row, col, value)` line per stored entry, in dictionary order, each
line terminated by a newline. -/
def serializeText (m : SparseMatrix) : PyStr :=
  "rows=".toList ++ intToStr m.rows ++ ['\n'] ++
  "cols=".toList ++ intToStr m.cols ++ ['\n'] ++
  (m.data.map (fun e => entryLine e ++ ['\n'])).flatten

end SparseSpec

namespace SparseSpec.Code

/-- `src/code` `add`: on matching shapes, build a fresh matrix by setting
`self.data[pos] + other.getElement(pos)` for every key of `self`, then the
raw `other.data[pos]` for keys of `other` not in `self`. -/
def add (A B : SparseMatrix) : Except Err SparseMatrix :=
  if A.rows ≠ B.rows ∨ A.cols ≠ B.cols then .error .DimensionMismatch
  else
    let r1 := A.data.foldl
      (fun res e => setElement res e.1.1 e.1.2 (dictGet A.data e.1 + getElement B e.1.1 e.1.2))
      (⟨A.rows, A.cols, []⟩ : SparseMatrix)
    let r2 := B.data.foldl
      (fun res e =>
        if dictMem A.data e.1 then res
        else setElement res e.1.1 e.1.2 (dictGet B.data e.1)) r1
    .ok r2

/-- `src/code` `subtract`: as `add` with subtraction, and `-other.data[pos]`
for keys only in `other`. -/
def subtract (A B : SparseMatrix) : Except Err SparseMatrix :=
  if A.rows ≠ B.rows ∨ A.cols ≠ B.cols then .error .DimensionMismatch
  else
    let r1 := A.data.foldl
      (fun res e => setElement res e.1.1 e.1.2 (dictGet A.data e.1 - getElement B e.1.1 e.1.2))
      (⟨A.rows, A.cols, []⟩ : SparseMatrix)
    let r2 := B.data.foldl
      (fun res e =>
        if dictMem A.data e.1 then res
        else setElement res e.1.1 e.1.2 (-(dictGet B.data e.1))) r1
    .ok r2

/-- The dense inner accumulation `total += self.getElement(i,k) * other.getElement(k,j)`
over `k in range(self.cols)`. -/
def mulTotal (A B : SparseMatrix) (i j : Int) : Int :=
  (intRange A.cols).foldl (fun t k => t + getElement A i k * getElement B k j) 0

/-- The dense loop over `j in range(other.cols)` for a fixed row `i`:
store each non-zero `total`. -/
def mulColLoop (A B : SparseMatrix) (i : Int) (js : List Int) (res : SparseMatrix) :
    SparseMatrix :=
  match js with
  | [] => res
  | j :: rest =>
    let total := mulTotal A B i j
    mulColLoop A B i rest (if total ≠ 0 then setElement res i j total else res)

/-- The dense loop over `i in range(self.rows)`. -/
def mulRowLoop (A B : SparseMatrix) (is : List Int) (res : SparseMatrix) : SparseMatrix :=
  match is with
  | [] => res
  | i :: rest => mulRowLoop A B rest (mulColLoop A B i (intRange B.cols) res)

/-- `src/code` `multiply`: dimension check, then the dense triple loop. -/
def multiply (A B : SparseMatrix) : Except Err SparseMatrix :=
  if A.cols ≠ B.rows then .error .DimensionMismatch
  else .ok (mulRowLoop A B (intRange A.rows) ⟨A.rows, B.cols, []⟩)

/-- The entry-line loop of `src/code` `readFile`: parenthesis check, split on
commas into exactly three integer fields, reject `row >= rows` or
`col >= cols`, then `setElement`.  Every failure is wrapped by the
surrounding handler into the format error. -/
def readEntries (rows cols : Int) (m : SparseMatrix) : List PyStr → Except Err SparseMatrix
  | [] => .ok m
  | line :: rest =>
    if line.head? ≠ some '(' ∨ line.getLast? ≠ some ')' then .error .FormatError
    else
      match splitOnChar ',' (line.drop 1).dropLast with
      | [p1, p2, p3] =>
        match pyInt p1, pyInt p2, pyInt p3 with
        | some row, some col, some value =>
          if row ≥ rows ∨ col ≥ cols then .error .FormatError
          else readEntries rows cols (setElement m row col value) rest
        | _, _, _ => .error .FormatError
      | _ => .error .FormatError

/-- `src/code` `readFile` on the text read from the file: stripped non-empty
lines, at least two of them, `rows=`/`cols=` headers split on `=` into
exactly two parts with integer second parts, then the entry loop. -/
def readFile (text : PyStr) : Except Err SparseMatrix :=
  let lines := pyLines text
  if lines.length < 2 then .error .FormatError
  else
    match lines with
    | l0 :: l1 :: rest =>
      match splitOnChar '=' l0, splitOnChar '=' l1 with
      | [_, rs], [_, cs] =>
        match pyInt rs, pyInt cs with
        | some rows, some cols => readEntries rows cols ⟨rows, cols, []⟩ rest
        | _, _ => .error .FormatError
      | _, _ => .error .FormatError
    | _ => .error .FormatError

/-- The text `src/code` `writeToFile` writes. -/
def writeText (m : SparseMatrix) : PyStr :=
  serializeText m

end SparseSpec.Code

namespace SparseSpec.IntegralFile

/-- `src/integral-file` `add`: copy `self.data`, then merge each item of
`other.data`, deleting a key whose merged value becomes `0`. -/
def add (A B : SparseMatrix) : Except Err SparseMatrix :=
  if A.rows ≠ B.rows ∨ A.cols ≠ B.cols then .error .DimensionMismatch
  else
    let rd := B.data.foldl
      (fun rd e =>
        if dictMem rd e.1 then
          let rd2 := dictInsert rd e.1 (dictGet rd e.1 + e.2)
          if dictGet rd2 e.1 = 0 then dictDelete rd2 e.1 else rd2
        else dictInsert rd e.1 e.2) A.data
    .ok ⟨A.rows, A.cols, rd⟩

/-- `src/integral-file` `subtract`: as `add` with subtraction and `-value`
for fresh keys. -/
def subtract (A B : SparseMatrix) : Except Err SparseMatrix :=
  if A.rows ≠ B.rows ∨ A.cols ≠ B.cols then .error .DimensionMismatch
  else
    let rd := B.data.foldl
      (fun rd e =>
        if dictMem rd e.1 then
          let rd2 := dictInsert rd e.1 (dictGet rd e.1 - e.2)
          if dictGet rd2 e.1 = 0 then dictDelete rd2 e.1 else rd2
        else dictInsert rd e.1 (-e.2)) A.data
    .ok ⟨A.rows, A.cols, rd⟩

/-- The inner loop of `src/integral-file` `multiply` for one stored entry
`(i, k) ↦ val1` of the first operand: over `j in range(result_cols)`, read
`other.getElement(k, j)` (which can raise), accumulate non-zero products
into `result_data[(i, j)]`, and delete the key when the sum reaches `0`. -/
def mulInner (B : SparseMatrix) (i k val1 : Int) (js : List Int) (rd : Dict) :
    Except Err Dict :=
  match js with
  | [] => .ok rd
  | j :: rest =>
    match getElement B k j with
    | .error e => .error e
    | .ok val2 =>
      if val2 ≠ 0 then
        let rd2 := dictInsert rd (i, j) (dictGet rd (i, j) + val1 * val2)
        mulInner B i k val1 rest (if dictGet rd2 (i, j) = 0 then dictDelete rd2 (i, j) else rd2)
      else mulInner B i k val1 rest rd

/-- The outer loop of `src/integral-file` `multiply` over the stored entries
of the first operand. -/
def mulOuter (B : SparseMatrix) (entries : Dict) (rd : Dict) : Except Err Dict :=
  match entries with
  | [] => .ok rd
  | e :: rest =>
    match mulInner B e.1.1 e.1.2 e.2 (intRange B.cols) rd with
    | .error err => .error err
    | .ok rd2 => mulOuter B rest rd2

/-- `src/integral-file` `multiply`: dimension check, then the sparse
entry-driven product. -/
def multiply (A B : SparseMatrix) : Except Err SparseMatrix :=
  if A.cols ≠ B.rows then .error .DimensionMismatch
  else
    match mulOuter B A.data [] with
    | .error e => .error e
    | .ok rd => .ok ⟨A.rows, B.cols, rd⟩

/-- The entry-line loop of `src/integral-file` `load_from_file`: parenthesis
check, exactly three comma-separated fields, stripped; row and column must
be digit strings, the value a digit string after removing leading `-`s;
then the raw dictionary store `data[(int(row), int(col))] = int(value)`
with no bounds check and no zero elision. -/
def loadEntries (data : Dict) : List PyStr → Except Err Dict
  | [] => .ok data
  | line :: rest =>
    if line.head? ≠ some '(' ∨ line.getLast? ≠ some ')' then .error .FormatError
    else
      match splitOnChar ',' (line.drop 1).dropLast with
      | [e1, e2, e3] =>
        let row := stripPy e1
        let col := stripPy e2
        let value := stripPy e3
        if ¬ pyIsDigit row ∨ ¬ pyIsDigit col then .error .FormatError
        else if ¬ pyIsDigit (value.dropWhile (fun ch => ch = '-')) then .error .FormatError
        else
          match pyInt row, pyInt col, pyInt value with
          | some r, some c, some v => loadEntries (dictInsert data (r, c) v) rest
          | _, _, _ => .error .FormatError
      | _ => .error .FormatError

/-- `src/integral-file` `load_from_file` on the text read from the file:
header values are `lines[i].split('=')[1].strip()` (any extra `=` parts are
ignored, a missing one raises), then the entry loop. -/
def load (text : PyStr) : Except Err SparseMatrix :=
  match pyLines text with
  | l0 :: l1 :: rest =>
    match (splitOnChar '=' l0).get? 1, (splitOnChar '=' l1).get? 1 with
    | some rs, some cs =>
      match pyInt (stripPy rs), pyInt (stripPy cs) with
      | some rows, some cols =>
        match loadEntries [] rest with
        | .ok data => .ok ⟨rows, cols, data⟩
        | .error e => .error e
      | _, _ => .error .FormatError
    | _, _ => .error .FormatError
  | _ => .error .FormatError

/-- The text `src/integral-file` `save_to_file` writes (same format as the
other variant's writer). -/
def saveText (m : SparseMatrix) : PyStr :=
  serializeText m

end SparseSpec.IntegralFile

namespace SparseSpec.Code

/-- Store-passing form of `src/code` `add` for the frame property: the
operand objects are threaded through both loops, and each loop step writes
only the `result` object (no statement of the method targets an operand). -/
def addCall (A B : SparseMatrix) : (Except Err SparseMatrix) × SparseMatrix × SparseMatrix :=
  if A.rows ≠ B.rows ∨ A.cols ≠ B.cols then (.error .DimensionMismatch, A, B)
  else
    let st1 := A.data.foldl
      (fun (st : (SparseMatrix × SparseMatrix) × SparseMatrix) e =>
        (st.1, setElement st.2 e.1.1 e.1.2
          (dictGet st.1.1.data e.1 + getElement st.1.2 e.1.1 e.1.2)))
      ((A, B), (⟨A.rows, A.cols, []⟩ : SparseMatrix))
    let st2 := B.data.foldl
      (fun (st : (SparseMatrix × SparseMatrix) × SparseMatrix) e =>
        (st.1, if dictMem st.1.1.data e.1 then st.2
               else setElement st.2 e.1.1 e.1.2 (dictGet st.1.2.data e.1))) st1
    (.ok st2.2, st2.1.1, st2.1.2)

/-- Store-passing form of `src/code` `subtract` (see `addCall`). -/
def subtractCall (A B : SparseMatrix) : (Except Err SparseMatrix) × SparseMatrix × SparseMatrix :=
  if A.rows ≠ B.rows ∨ A.cols ≠ B.cols then (.error .DimensionMismatch, A, B)
  else
    let st1 := A.data.foldl
      (fun (st : (SparseMatrix × SparseMatrix) × SparseMatrix) e =>
        (st.1, setElement st.2 e.1.1 e.1.2
          (dictGet st.1.1.data e.1 - getElement st.1.2 e.1.1 e.1.2)))
      ((A, B), (⟨A.rows, A.cols, []⟩ : SparseMatrix))
    let st2 := B.data.foldl
      (fun (st : (SparseMatrix × SparseMatrix) × SparseMatrix) e =>
        (st.1, if dictMem st.1.1.data e.1 then st.2
               else setElement st.2 e.1.1 e.1.2 (-(dictGet st.1.2.data e.1)))) st1
    (.ok st2.2, st2.1.1, st2.1.2)

/-- Store-passing form of the dense inner column loop. -/
def mulColLoopCall (st : (SparseMatrix × SparseMatrix) × SparseMatrix) (i : Int)
    (js : List Int) : (SparseMatrix × SparseMatrix) × SparseMatrix :=
  match js with
  | [] => st
  | j :: rest =>
    let total := (intRange st.1.1.cols).foldl
      (fun t k => t + getElement st.1.1 i k * getElement st.1.2 k j) 0
    mulColLoopCall (st.1, if total ≠ 0 then setElement st.2 i j total else st.2) i rest

/-- Store-passing form of the dense outer row loop. -/
def mulRowLoopCall (st : (SparseMatrix × SparseMatrix) × SparseMatrix)
    (is : List Int) : (SparseMatrix × SparseMatrix) × SparseMatrix :=
  match is with
  | [] => st
  | i :: rest => mulRowLoopCall (mulColLoopCall st i (intRange st.1.2.cols)) rest

/-- Store-passing form of `src/code` `multiply` (see `addCall`). -/
def multiplyCall (A B : SparseMatrix) : (Except Err SparseMatrix) × SparseMatrix × SparseMatrix :=
  if A.cols ≠ B.rows then (.error .DimensionMismatch, A, B)
  else
    let st := mulRowLoopCall ((A, B), (⟨A.rows, B.cols, []⟩ : SparseMatrix)) (intRange A.rows)
    (.ok st.2, st.1.1, st.1.2)

end SparseSpec.Code

namespace SparseSpec.IntegralFile

/-- Store-passing form of `src/integral-file` `add` for the frame property:
the merge loop writes only the local `result_data` dictionary. -/
def addCall (A B : SparseMatrix) : (Except Err SparseMatrix) × SparseMatrix × SparseMatrix :=
  if A.rows ≠ B.rows ∨ A.cols ≠ B.cols then (.error .DimensionMismatch, A, B)
  else
    let st := B.data.foldl
      (fun (st : (SparseMatrix × SparseMatrix) × Dict) e =>
        (st.1,
         if dictMem st.2 e.1 then
           let rd2 := dictInsert st.2 e.1 (dictGet st.2 e.1 + e.2)
           if dictGet rd2 e.1 = 0 then dictDelete rd2 e.1 else rd2
         else dictInsert st.2 e.1 e.2))
      ((A, B), A.data)
    (.ok ⟨st.1.1.rows, st.1.1.cols, st.2⟩, st.1.1, st.1.2)

/-- Store-passing form of `src/integral-file` `subtract` (see `addCall`). -/
def subtractCall (A B : SparseMatrix) : (Except Err SparseMatrix) × SparseMatrix × SparseMatrix :=
  if A.rows ≠ B.rows ∨ A.cols ≠ B.cols then (.error .DimensionMismatch, A, B)
  else
    let st := B.data.foldl
      (fun (st : (SparseMatrix × SparseMatrix) × Dict) e =>
        (st.1,
         if dictMem st.2 e.1 then
           let rd2 := dictInsert st.2 e.1 (dictGet st.2 e.1 - e.2)
           if dictGet rd2 e.1 = 0 then dictDelete rd2 e.1 else rd2
         else dictInsert st.2 e.1 (-e.2)))
      ((A, B), A.data)
    (.ok ⟨st.1.1.rows, st.1.1.cols, st.2⟩, st.1.1, st.1.2)

/-- Store-passing form of the sparse inner loop; a raised `IndexError`
propagates, leaving the operand objects as they were. -/
def mulInnerCall (st : (SparseMatrix × SparseMatrix) × Dict) (i k val1 : Int)
    (js : List Int) : (Except Err Dict) × (SparseMatrix × SparseMatrix) :=
  match js with
  | [] => (.ok st.2, st.1)
  | j :: rest =>
    match getElement st.1.2 k j with
    | .error e => (.error e, st.1)
    | .ok val2 =>
      if val2 ≠ 0 then
        let rd2 := dictInsert st.2 (i, j) (dictGet st.2 (i, j) + val1 * val2)
        mulInnerCall
          (st.1, if dictGet rd2 (i, j) = 0 then dictDelete rd2 (i, j) else rd2) i k val1 rest
      else mulInnerCall st i k val1 rest

/-- Store-passing form of the sparse outer loop. -/
def mulOuterCall (st : (SparseMatrix × SparseMatrix) × Dict) (entries : Dict) :
    (Except Err Dict) × (SparseMatrix × SparseMatrix) :=
  match entries with
  | [] => (.ok st.2, st.1)
  | e :: rest =>
    match mulInnerCall st e.1.1 e.1.2 e.2 (intRange st.1.2.cols) with
    | (.error err, ab) => (.error err, ab)
    | (.ok rd2, ab) => mulOuterCall (ab, rd2) rest

/-- Store-passing form of `src/integral-file` `multiply` (see `addCall`). -/
def multiplyCall (A B : SparseMatrix) : (Except Err SparseMatrix) × SparseMatrix × SparseMatrix :=
  if A.cols ≠ B.rows then (.error .DimensionMismatch, A, B)
  else
    match mulOuterCall ((A, B), []) A.data with
    | (.error e, ab) => (.error e, ab.1, ab.2)
    | (.ok rd, ab) => (.ok ⟨ab.1.rows, ab.2.cols, rd⟩, ab.1, ab.2)

end SparseSpec.IntegralFile


namespace SparseSpec

theorem dictFind_insert (d : Dict) (k k' : Int × Int) (v : Int) :
    dictFind (dictInsert d k v) k' = if k' = k then some v else dictFind d k' := by
  induction d with
  | nil =>
    by_cases h : k = k'
    · simp [dictInsert, dictFind, h]
    · have h' : ¬ k' = k := fun hh => h hh.symm
      simp [dictInsert, dictFind, h, h']
  | cons e rest ih =>
    by_cases he : e.1 = k
    · by_cases h : k = k'
      · simp [dictInsert, dictFind, he, h]
      · have h' : ¬ k' = k := fun hh => h hh.symm
        simp [dictInsert, dictFind, he, h, h']
    · by_cases h : e.1 = k'
      · have h' : ¬ k' = k := fun hh => he (h.trans hh)
        simp [dictInsert, dictFind, he, h, h']
      · simp [dictInsert, dictFind, he, h, ih]

theorem dictFind_delete (d : Dict) (k k' : Int × Int) :
    dictFind (dictDelete d k) k' = if k' = k then none else dictFind d k' := by
  induction d with
  | nil => simp [dictDelete, dictFind]
  | cons e rest ih =>
    by_cases he : e.1 = k
    · have hstep : dictDelete (e :: rest) k = dictDelete rest k := by
        simp [dictDelete, List.filter_cons, he]
      rw [hstep, ih]
      by_cases h : k' = k
      · simp [h]
      · have hek' : ¬ e.1 = k' := fun hh => h ((he.symm.trans hh).symm)
        simp [dictFind, h, hek']
    · have hstep : dictDelete (e :: rest) k = e :: dictDelete rest k := by
        simp [dictDelete, List.filter_cons, he]
      rw [hstep]
      by_cases h : e.1 = k'
      · have hk : ¬ k' = k := fun hh => he (h.trans hh)
        simp [dictFind, h, hk]
      · simp [dictFind, h, ih]

theorem dictFind_none_of_not_mem (d : Dict) (k : Int × Int)
    (h : ¬ dictMem d k = true) : dictFind d k = none := by
  rcases hd : dictFind d k with _ | w
  · rfl
  · exact absurd (by simp [dictMem, hd]) h

end SparseSpec

namespace SparseSpec

/-- C2 counterexample: in the `src/code` variant, reading the out-of-bounds
coordinate `(5, 5)` of an empty `1 × 1` matrix silently returns `0` instead
of failing, and writing it silently stores the entry. -/
theorem claim2_code_accessors_do_not_validate :
    Code.getElement ⟨1, 1, []⟩ 5 5 = 0 ∧
    Code.setElement ⟨1, 1, []⟩ 5 5 7 = ⟨1, 1, [((5, 5), 7)]⟩ := by
  exact ⟨rfl, rfl⟩

/-- C2 (amended): the integral-file accessors validate bounds, failing with
`IndexOutOfBounds` on any out-of-bounds coordinate and returning the stored
value (or `0` when absent) in bounds; the `src/code` accessors perform no
validation: its get returns the stored value or `0` at any coordinate and
its set silently stores. -/
theorem claim2_accessor_validation (m : SparseMatrix) (row col v : Int) :
    (row < 0 ∨ row ≥ m.rows ∨ col < 0 ∨ col ≥ m.cols →
      IntegralFile.getElement m row col = .error .IndexOutOfBounds ∧
      IntegralFile.setElement m row col v = .error .IndexOutOfBounds) ∧
    (¬(row < 0 ∨ row ≥ m.rows ∨ col < 0 ∨ col ≥ m.cols) →
      (∀ w, dictFind m.data (row, col) = some w →
        IntegralFile.getElement m row col = .ok w) ∧
      (dictFind m.data (row, col) = none →
        IntegralFile.getElement m row col = .ok 0)) ∧
    (∀ w, dictFind m.data (row, col) = some w → Code.getElement m row col = w) ∧
    (dictFind m.data (row, col) = none → Code.getElement m row col = 0) := by
  refine ⟨fun h => ?_, fun h => ?_, fun w hw => ?_, fun h => ?_⟩
  · exact ⟨by simp [IntegralFile.getElement, h], by simp [IntegralFile.setElement, h]⟩
  · refine ⟨fun w hw => ?_, fun hn => ?_⟩
    · simp [IntegralFile.getElement, h, dictGet, hw]
    · simp [IntegralFile.getElement, h, dictGet, hn]
  · simp [Code.getElement, dictGet, hw]
  · simp [Code.getElement, dictGet, h]

/-- Instantiation of the amended C2 theorem at the concrete matrix
`{(0,0) ↦ 3}` of shape `2 × 2` and coordinate `(0, 0)`. -/
theorem claim2_accessor_validation_witness :
    (((0 : Int) < 0 ∨ (0 : Int) ≥ (2 : Int) ∨ (0 : Int) < 0 ∨ (0 : Int) ≥ (2 : Int) →
      IntegralFile.getElement ⟨2, 2, [((0, 0), 3)]⟩ 0 0 = .error .IndexOutOfBounds ∧
      IntegralFile.setElement ⟨2, 2, [((0, 0), 3)]⟩ 0 0 9 = .error .IndexOutOfBounds) ∧
    (¬((0 : Int) < 0 ∨ (0 : Int) ≥ (2 : Int) ∨ (0 : Int) < 0 ∨ (0 : Int) ≥ (2 : Int)) →
      (∀ w, dictFind [((0, 0), 3)] (0, 0) = some w →
        IntegralFile.getElement ⟨2, 2, [((0, 0), 3)]⟩ 0 0 = .ok w) ∧
      (dictFind [((0, 0), 3)] (0, 0) = none →
        IntegralFile.getElement ⟨2, 2, [((0, 0), 3)]⟩ 0 0 = .ok 0)) ∧
    (∀ w, dictFind [((0, 0), 3)] (0, 0) = some w →
      Code.getElement ⟨2, 2, [((0, 0), 3)]⟩ 0 0 = w) ∧
    (dictFind [((0, 0), 3)] (0, 0) = none →
      Code.getElement ⟨2, 2, [((0, 0), 3)]⟩ 0 0 = 0)) :=
  claim2_accessor_validation ⟨2, 2, [((0, 0), 3)]⟩ 0 0 9

/-- C7: after `set(m, r, c, 0)` at an in-bounds coordinate, `get` returns 0
and the coordinate is absent from the entry set, in both variants, whether
or not an entry was stored there. -/
theorem claim7_set_zero_elides (m : SparseMatrix) (r c : Int)
    (hr0 : 0 ≤ r) (hr : r < m.rows) (hc0 : 0 ≤ c) (hc : c < m.cols) :
    (∃ m', IntegralFile.setElement m r c 0 = .ok m' ∧
           IntegralFile.getElement m' r c = .ok 0 ∧
           dictMem m'.data (r, c) = false) ∧
    Code.getElement (Code.setElement m r c 0) r c = 0 ∧
    dictMem (Code.setElement m r c 0).data (r, c) = false := by
  have hko : ¬(r < 0 ∨ r ≥ m.rows ∨ c < 0 ∨ c ≥ m.cols) := by omega
  by_cases hmem : dictMem m.data (r, c) = true
  · have hmem' : (dictFind m.data (r, c)).isSome = true := by simpa [dictMem] using hmem
    refine ⟨⟨{ m with data := dictDelete m.data (r, c) }, ?_, ?_, ?_⟩, ?_, ?_⟩
    · simp [IntegralFile.setElement, hko, hmem]
    · simp [IntegralFile.getElement, hko, dictGet, dictFind_delete]
    · simp [dictMem, dictFind_delete]
    · simp [Code.setElement, Code.getElement, dictMem, hmem', dictGet, dictFind_delete]
    · simp [Code.setElement, dictMem, hmem', dictFind_delete]
  · have hfind : dictFind m.data (r, c) = none := dictFind_none_of_not_mem _ _ hmem
    refine ⟨⟨m, ?_, ?_, ?_⟩, ?_, ?_⟩
    · simp [IntegralFile.setElement, hko, hmem]
    · simp [IntegralFile.getElement, hko, dictGet, hfind]
    · simp [dictMem, hfind]
    · simp [Code.setElement, hmem, Code.getElement, dictGet, hfind]
    · simp [Code.setElement, hmem, dictMem, hfind]

/-- Instantiation of the C7 theorem: zeroing the stored coordinate `(0, 1)`
of a concrete `1 × 2` matrix. -/
theorem claim7_set_zero_elides_witness :
    ((0 : Int) ≤ 0 ∧ (0 : Int) < 1 ∧ (0 : Int) ≤ 1 ∧ (1 : Int) < 2) ∧
    ((∃ m', IntegralFile.setElement ⟨1, 2, [((0, 1), 4)]⟩ 0 1 0 = .ok m' ∧
            IntegralFile.getElement m' 0 1 = .ok 0 ∧
            dictMem m'.data (0, 1) = false) ∧
     Code.getElement (Code.setElement ⟨1, 2, [((0, 1), 4)]⟩ 0 1 0) 0 1 = 0 ∧
     dictMem (Code.setElement ⟨1, 2, [((0, 1), 4)]⟩ 0 1 0).data (0, 1) = false) :=
  ⟨⟨by decide, by decide, by decide, by decide⟩,
   claim7_set_zero_elides ⟨1, 2, [((0, 1), 4)]⟩ 0 1
     (by decide) (by decide) (by decide) (by decide)⟩

end SparseSpec

namespace SparseSpec

/-- C3: the parse path of `src/integral-file` stores a zero-valued entry
verbatim (its `load_from_file` writes the dictionary directly instead of
going through `setElement`), so the matrix it returns for the well-formed
input `rows=1\ncols=1\n(0,0,0)\n` violates the zero-elision invariant. -/
theorem claim3_load_stores_zero_entry :
    IntegralFile.load "rows=1\ncols=1\n(0,0,0)\n".toList =
      .ok ⟨1, 1, [((0, 0), 0)]⟩ ∧
    ¬ Wf ⟨1, 1, [((0, 0), 0)]⟩ := by
  exact ⟨by decide, by decide⟩

/-- C4: `src/integral-file` `load_from_file` performs no bounds check on
parsed coordinates: on the spec's own example `rows=1\ncols=1\n(1,0,5)\n`
it returns a `1 × 1` matrix holding the out-of-bounds entry `(1,0) ↦ 5`
instead of failing; the `src/code` reader does reject the input. -/
theorem claim4_load_accepts_out_of_bounds :
    IntegralFile.load "rows=1\ncols=1\n(1,0,5)\n".toList =
      .ok ⟨1, 1, [((1, 0), 5)]⟩ ∧
    Code.readFile "rows=1\ncols=1\n(1,0,5)\n".toList = .error .FormatError := by
  exact ⟨by decide, by decide⟩

/-- C8: `src/code` `readFile` only checks the upper bounds `row >= rows` and
`col >= cols`, so the entry line `(-1, 0, 5)` with a negative row is
accepted and stored under the negative coordinate key `(-1, 0)` instead of
failing; the `src/integral-file` loader's digit check does reject it. -/
theorem claim8_readFile_accepts_negative_row :
    Code.readFile "rows=2\ncols=2\n(-1, 0, 5)\n".toList =
      .ok ⟨2, 2, [((-1, 0), 5)]⟩ ∧
    IntegralFile.load "rows=2\ncols=2\n(-1, 0, 5)\n".toList = .error .FormatError := by
  exact ⟨by decide, by decide⟩

end SparseSpec

namespace SparseSpec.Code

theorem code_addCall_spec (A B : SparseMatrix) : addCall A B = (add A B, A, B) := by
  rw [addCall, add]
  by_cases h : A.rows ≠ B.rows ∨ A.cols ≠ B.cols
  · simp [h]
  · simp only [h, if_false]
    have aux1 : ∀ (l : Dict) (r : SparseMatrix),
        l.foldl (fun (st : (SparseMatrix × SparseMatrix) × SparseMatrix) e =>
          (st.1, setElement st.2 e.1.1 e.1.2
            (dictGet st.1.1.data e.1 + getElement st.1.2 e.1.1 e.1.2))) ((A, B), r)
        = ((A, B), l.foldl (fun res e => setElement res e.1.1 e.1.2
            (dictGet A.data e.1 + getElement B e.1.1 e.1.2)) r) := by
      intro l
      induction l with
      | nil => intro r; rfl
      | cons e rest ih => intro r; exact ih _
    have aux2 : ∀ (l : Dict) (r : SparseMatrix),
        l.foldl (fun (st : (SparseMatrix × SparseMatrix) × SparseMatrix) e =>
          (st.1, if dictMem st.1.1.data e.1 then st.2
                 else setElement st.2 e.1.1 e.1.2 (dictGet st.1.2.data e.1))) ((A, B), r)
        = ((A, B), l.foldl (fun res e => if dictMem A.data e.1 then res
                 else setElement res e.1.1 e.1.2 (dictGet B.data e.1)) r) := by
      intro l
      induction l with
      | nil => intro r; rfl
      | cons e rest ih =>
        intro r
        by_cases hm : dictMem A.data e.1 <;> simp only [List.foldl_cons, hm, if_true,
          if_false, Bool.false_eq_true] <;> exact ih _
    rw [aux1, aux2]

theorem code_subtractCall_spec (A B : SparseMatrix) : subtractCall A B = (subtract A B, A, B) := by
  rw [subtractCall, subtract]
  by_cases h : A.rows ≠ B.rows ∨ A.cols ≠ B.cols
  · simp [h]
  · simp only [h, if_false]
    have aux1 : ∀ (l : Dict) (r : SparseMatrix),
        l.foldl (fun (st : (SparseMatrix × SparseMatrix) × SparseMatrix) e =>
          (st.1, setElement st.2 e.1.1 e.1.2
            (dictGet st.1.1.data e.1 - getElement st.1.2 e.1.1 e.1.2))) ((A, B), r)
        = ((A, B), l.foldl (fun res e => setElement res e.1.1 e.1.2
            (dictGet A.data e.1 - getElement B e.1.1 e.1.2)) r) := by
      intro l
      induction l with
      | nil => intro r; rfl
      | cons e rest ih => intro r; exact ih _
    have aux2 : ∀ (l : Dict) (r : SparseMatrix),
        l.foldl (fun (st : (SparseMatrix × SparseMatrix) × SparseMatrix) e =>
          (st.1, if dictMem st.1.1.data e.1 then st.2
                 else setElement st.2 e.1.1 e.1.2 (-(dictGet st.1.2.data e.1)))) ((A, B), r)
        = ((A, B), l.foldl (fun res e => if dictMem A.data e.1 then res
                 else setElement res e.1.1 e.1.2 (-(dictGet B.data e.1))) r) := by
      intro l
      induction l with
      | nil => intro r; rfl
      | cons e rest ih =>
        intro r
        by_cases hm : dictMem A.data e.1 <;> simp only [List.foldl_cons, hm, if_true,
          if_false, Bool.false_eq_true] <;> exact ih _
    rw [aux1, aux2]

theorem code_mulColLoopCall_spec (A B res : SparseMatrix) (i : Int) (js : List Int) :
    mulColLoopCall ((A, B), res) i js = ((A, B), mulColLoop A B i js res) := by
  induction js generalizing res with
  | nil => rfl
  | cons j rest ih => exact ih _

theorem code_mulRowLoopCall_spec (A B res : SparseMatrix) (is : List Int) :
    mulRowLoopCall ((A, B), res) is = ((A, B), mulRowLoop A B is res) := by
  induction is generalizing res with
  | nil => rfl
  | cons i rest ih =>
    rw [mulRowLoopCall, mulRowLoop, code_mulColLoopCall_spec]
    exact ih _

theorem code_multiplyCall_spec (A B : SparseMatrix) : multiplyCall A B = (multiply A B, A, B) := by
  rw [multiplyCall, multiply]
  by_cases h : A.cols ≠ B.rows
  · simp [h]
  · simp only [h, if_false, code_mulRowLoopCall_spec]

end SparseSpec.Code

namespace SparseSpec.IntegralFile

theorem if_addCall_spec (A B : SparseMatrix) : addCall A B = (add A B, A, B) := by
  rw [addCall, add]
  by_cases h : A.rows ≠ B.rows ∨ A.cols ≠ B.cols
  · simp [h]
  · simp only [h, if_false]
    have aux : ∀ (l : Dict) (r : Dict),
        l.foldl (fun (st : (SparseMatrix × SparseMatrix) × Dict) e =>
          (st.1,
           if dictMem st.2 e.1 then
             let rd2 := dictInsert st.2 e.1 (dictGet st.2 e.1 + e.2)
             if dictGet rd2 e.1 = 0 then dictDelete rd2 e.1 else rd2
           else dictInsert st.2 e.1 e.2)) ((A, B), r)
        = ((A, B), l.foldl (fun rd e =>
           if dictMem rd e.1 then
             let rd2 := dictInsert rd e.1 (dictGet rd e.1 + e.2)
             if dictGet rd2 e.1 = 0 then dictDelete rd2 e.1 else rd2
           else dictInsert rd e.1 e.2) r) := by
      intro l
      induction l with
      | nil => intro r; rfl
      | cons e rest ih => intro r; exact ih _
    rw [aux]

theorem if_subtractCall_spec (A B : SparseMatrix) : subtractCall A B = (subtract A B, A, B) := by
  rw [subtractCall, subtract]
  by_cases h : A.rows ≠ B.rows ∨ A.cols ≠ B.cols
  · simp [h]
  · simp only [h, if_false]
    have aux : ∀ (l : Dict) (r : Dict),
        l.foldl (fun (st : (SparseMatrix × SparseMatrix) × Dict) e =>
          (st.1,
           if dictMem st.2 e.1 then
             let rd2 := dictInsert st.2 e.1 (dictGet st.2 e.1 - e.2)
             if dictGet rd2 e.1 = 0 then dictDelete rd2 e.1 else rd2
           else dictInsert st.2 e.1 (-e.2))) ((A, B), r)
        = ((A, B), l.foldl (fun rd e =>
           if dictMem rd e.1 then
             let rd2 := dictInsert rd e.1 (dictGet rd e.1 - e.2)
             if dictGet rd2 e.1 = 0 then dictDelete rd2 e.1 else rd2
           else dictInsert rd e.1 (-e.2)) r) := by
      intro l
      induction l with
      | nil => intro r; rfl
      | cons e rest ih => intro r; exact ih _
    rw [aux]

theorem if_mulInnerCall_spec (A B : SparseMatrix) (rd : Dict) (i k v : Int) (js : List Int) :
    mulInnerCall ((A, B), rd) i k v js =
      (match mulInner B i k v js rd with
       | .ok rd' => ((.ok rd' : Except Err Dict), (A, B))
       | .error e => (.error e, (A, B))) := by
  induction js generalizing rd with
  | nil => rfl
  | cons j rest ih =>
    rw [mulInnerCall, mulInner]
    cases hg : getElement B k j with
    | error e => rfl
    | ok val2 =>
      dsimp only
      by_cases hv : val2 ≠ 0
      · rw [if_pos hv, if_pos hv]
        exact ih _
      · rw [if_neg hv, if_neg hv]
        exact ih _

theorem if_mulOuterCall_spec (A B : SparseMatrix) (rd : Dict) (entries : Dict) :
    mulOuterCall ((A, B), rd) entries =
      (match mulOuter B entries rd with
       | .ok rd' => ((.ok rd' : Except Err Dict), (A, B))
       | .error e => (.error e, (A, B))) := by
  induction entries generalizing rd with
  | nil => rfl
  | cons e rest ih =>
    rw [mulOuterCall, mulOuter, if_mulInnerCall_spec]
    cases hI : mulInner B e.1.1 e.1.2 e.2 (intRange B.cols) rd with
    | error err => rfl
    | ok rd2 => exact ih _

theorem if_multiplyCall_spec (A B : SparseMatrix) : multiplyCall A B = (multiply A B, A, B) := by
  rw [multiplyCall, multiply]
  by_cases h : A.cols ≠ B.rows
  · simp [h]
  · simp only [h, if_false, if_mulOuterCall_spec]
    cases hO : mulOuter B A.data [] with
    | error e => rfl
    | ok rd => rfl

end SparseSpec.IntegralFile

namespace SparseSpec

/-- C9: each of the six operator methods (add, subtract, multiply in both
variants, in their store-passing forms threading the operand objects)
leaves both operands exactly as they were — `rows`, `cols` and entry set —
whether the call succeeds or fails, and its returned value is the pure
function of the operand values. -/
theorem claim9_operands_never_mutated (A B : SparseMatrix) :
    ((Code.addCall A B).2.1 = A ∧ (Code.addCall A B).2.2 = B ∧
      (Code.addCall A B).1 = Code.add A B) ∧
    ((Code.subtractCall A B).2.1 = A ∧ (Code.subtractCall A B).2.2 = B ∧
      (Code.subtractCall A B).1 = Code.subtract A B) ∧
    ((Code.multiplyCall A B).2.1 = A ∧ (Code.multiplyCall A B).2.2 = B ∧
      (Code.multiplyCall A B).1 = Code.multiply A B) ∧
    ((IntegralFile.addCall A B).2.1 = A ∧ (IntegralFile.addCall A B).2.2 = B ∧
      (IntegralFile.addCall A B).1 = IntegralFile.add A B) ∧
    ((IntegralFile.subtractCall A B).2.1 = A ∧ (IntegralFile.subtractCall A B).2.2 = B ∧
      (IntegralFile.subtractCall A B).1 = IntegralFile.subtract A B) ∧
    ((IntegralFile.multiplyCall A B).2.1 = A ∧ (IntegralFile.multiplyCall A B).2.2 = B ∧
      (IntegralFile.multiplyCall A B).1 = IntegralFile.multiply A B) := by
  rw [Code.code_addCall_spec, Code.code_subtractCall_spec, Code.code_multiplyCall_spec,
    IntegralFile.if_addCall_spec, IntegralFile.if_subtractCall_spec,
    IntegralFile.if_multiplyCall_spec]
  exact ⟨⟨rfl, rfl, rfl⟩, ⟨rfl, rfl, rfl⟩, ⟨rfl, rfl, rfl⟩,
    ⟨rfl, rfl, rfl⟩, ⟨rfl, rfl, rfl⟩, ⟨rfl, rfl, rfl⟩⟩

end SparseSpec

namespace SparseSpec

theorem dictFind_some_mem (d : Dict) (p : Int × Int) (v : Int)
    (h : dictFind d p = some v) : (p, v) ∈ d := by
  induction d with
  | nil => simp [dictFind] at h
  | cons e rest ih =>
    rw [dictFind] at h
    by_cases he : e.1 = p
    · rw [if_pos he] at h
      have hv' : v = e.2 := (Option.some_inj.mp h).symm
      have hpe : (p, v) = e := by rw [← he, hv']
      rw [hpe]
      exact List.mem_cons_self e rest
    · rw [if_neg he] at h
      exact List.mem_cons_of_mem _ (ih h)

theorem dictMem_iff_mem_keys (d : Dict) (p : Int × Int) :
    dictMem d p = true ↔ p ∈ d.map (fun e => e.1) := by
  induction d with
  | nil => simp [dictMem, dictFind]
  | cons e rest ih =>
    by_cases he : e.1 = p
    · simp [dictMem, dictFind, he]
    · have he' : ¬ p = e.1 := fun hh => he hh.symm
      simp [dictMem, dictFind, he, he'] at ih ⊢
      exact ih

theorem dictFind_self (d : Dict) (hnd : (d.map (fun e => e.1)).Nodup) :
    ∀ e ∈ d, dictFind d e.1 = some e.2 := by
  induction d with
  | nil => intro e he; simp at he
  | cons f rest ih =>
    intro e he
    rcases List.mem_cons.mp he with h | h
    · rw [h, dictFind, if_pos rfl]
    · have hne : f.1 ≠ e.1 := by
        intro hc
        have : e.1 ∈ rest.map (fun x => x.1) := List.mem_map_of_mem _ h
        rw [List.map_cons, List.nodup_cons] at hnd
        exact hnd.1 (hc ▸ this)
      rw [dictFind, if_neg hne]
      exact ih (by rw [List.map_cons, List.nodup_cons] at hnd; exact hnd.2) e h

theorem wf_find_eq_toOpt (m : SparseMatrix) (hm : Wf m) (p : Int × Int) :
    dictFind m.data p = toOpt (dictGet m.data p) := by
  rcases h : dictFind m.data p with _ | v
  · simp [dictGet, h, toOpt]
  · have hv : v ≠ 0 := (hm.2.2.1 (p, v) (dictFind_some_mem _ _ _ h)).2.2.2.2
    simp [dictGet, h, toOpt, hv]

theorem Code.setElement_find (m : SparseMatrix) (r c v : Int) (p : Int × Int) :
    dictFind (Code.setElement m r c v).data p =
      if p = (r, c) then toOpt v else dictFind m.data p := by
  by_cases hv : v = 0
  · by_cases hm : dictMem m.data (r, c) = true
    · rw [Code.setElement, if_pos hv, if_pos hm]
      simp only [dictFind_delete]
      by_cases hp : p = (r, c) <;> simp [hp, toOpt, hv]
    · rw [Code.setElement, if_pos hv, if_neg hm]
      by_cases hp : p = (r, c)
      · rw [if_pos hp, hp, dictFind_none_of_not_mem _ _ hm, toOpt, if_pos hv]
      · rw [if_neg hp]
  · rw [Code.setElement, if_neg hv]
    simp only [dictFind_insert]
    by_cases hp : p = (r, c) <;> simp [hp, toOpt, hv]

theorem Code.setElement_shape (m : SparseMatrix) (r c v : Int) :
    (Code.setElement m r c v).rows = m.rows ∧ (Code.setElement m r c v).cols = m.cols := by
  rw [Code.setElement]
  by_cases hv : v = 0
  · by_cases hm : dictMem m.data (r, c) = true <;> simp [hv, hm]
  · simp [hv]

end SparseSpec

namespace SparseSpec

theorem foldl_shape (f : SparseMatrix → (Int × Int) × Int → SparseMatrix)
    (hf : ∀ m e, (f m e).rows = m.rows ∧ (f m e).cols = m.cols) (l : Dict) :
    ∀ res, (l.foldl f res).rows = res.rows ∧ (l.foldl f res).cols = res.cols := by
  induction l with
  | nil => intro res; exact ⟨rfl, rfl⟩
  | cons e rest ih =>
    intro res
    rw [List.foldl_cons]
    exact ⟨(ih _).1.trans (hf res e).1, (ih _).2.trans (hf res e).2⟩

theorem code_add_loop1 (A B : SparseMatrix) (l : Dict) :
    (l.map (fun e => e.1)).Nodup →
    ∀ res : SparseMatrix, (∀ e ∈ l, dictFind res.data e.1 = none) →
    ∀ p, dictFind (l.foldl (fun res e => Code.setElement res e.1.1 e.1.2
        (dictGet A.data e.1 + Code.getElement B e.1.1 e.1.2)) res).data p
      = if p ∈ l.map (fun x => x.1) then toOpt (sumAB A B p) else dictFind res.data p := by
  induction l with
  | nil =>
    intro _ res _ p
    simp
  | cons e rest ih =>
    intro hnd res habs p
    rw [List.map_cons, List.nodup_cons] at hnd
    rw [List.foldl_cons]
    have hfind1 : ∀ q, dictFind (Code.setElement res e.1.1 e.1.2
        (dictGet A.data e.1 + Code.getElement B e.1.1 e.1.2)).data q
        = if q = e.1 then toOpt (sumAB A B e.1) else dictFind res.data q := by
      intro q
      rw [Code.setElement_find]
      simp only [Prod.mk.eta, Code.getElement, sumAB]
    have habs' : ∀ f ∈ rest, dictFind (Code.setElement res e.1.1 e.1.2
        (dictGet A.data e.1 + Code.getElement B e.1.1 e.1.2)).data f.1 = none := by
      intro f hf
      rw [hfind1]
      have hne : ¬ f.1 = e.1 := fun hc => hnd.1 (hc ▸ List.mem_map_of_mem _ hf)
      rw [if_neg hne]
      exact habs f (List.mem_cons_of_mem _ hf)
    rw [ih hnd.2 _ habs' p]
    by_cases hp : p ∈ rest.map (fun x => x.1)
    · have hp' : p ∈ (e :: rest).map (fun x => x.1) := by simp [hp]
      rw [if_pos hp, if_pos hp']
    · rw [if_neg hp, hfind1 p]
      by_cases hpe : p = e.1
      · have hp' : p ∈ (e :: rest).map (fun x => x.1) := by simp [hpe]
        rw [if_pos hpe, if_pos hp', hpe]
      · have hp' : p ∉ (e :: rest).map (fun x => x.1) := by
          simp only [List.map_cons, List.mem_cons]
          rintro (h | h)
          · exact hpe h
          · exact hp h
        rw [if_neg hpe, if_neg hp']

theorem code_add_loop2 (A B : SparseMatrix) (l : Dict) :
    (l.map (fun e => e.1)).Nodup →
    ∀ res : SparseMatrix,
      (∀ e ∈ l, dictMem A.data e.1 = false → dictFind res.data e.1 = none) →
    ∀ p, dictFind (l.foldl (fun res e => if dictMem A.data e.1 then res
        else Code.setElement res e.1.1 e.1.2 (dictGet B.data e.1)) res).data p
      = if p ∈ l.map (fun x => x.1) ∧ dictMem A.data p = false
        then toOpt (dictGet B.data p) else dictFind res.data p := by
  induction l with
  | nil =>
    intro _ res _ p
    simp
  | cons e rest ih =>
    intro hnd res habs p
    rw [List.map_cons, List.nodup_cons] at hnd
    rw [List.foldl_cons]
    by_cases hmA : dictMem A.data e.1
    · rw [if_pos hmA]
      rw [ih hnd.2 res (fun f hf => habs f (List.mem_cons_of_mem _ hf)) p]
      by_cases hp : p ∈ rest.map (fun x => x.1) ∧ dictMem A.data p = false
      · have hp' : p ∈ (e :: rest).map (fun x => x.1) ∧ dictMem A.data p = false :=
          ⟨by simp [hp.1], hp.2⟩
        rw [if_pos hp, if_pos hp']
      · have hp' : ¬(p ∈ (e :: rest).map (fun x => x.1) ∧ dictMem A.data p = false) := by
          rintro ⟨hmem, hfalse⟩
          simp only [List.map_cons, List.mem_cons] at hmem
          rcases hmem with h | h
          · rw [h] at hfalse
            rw [hmA] at hfalse
            simp at hfalse
          · exact hp ⟨h, hfalse⟩
        rw [if_neg hp, if_neg hp']
    · rw [if_neg hmA]
      have hmAe : dictMem A.data e.1 = false := by simpa using hmA
      have hfind1 : ∀ q, dictFind (Code.setElement res e.1.1 e.1.2
          (dictGet B.data e.1)).data q
          = if q = e.1 then toOpt (dictGet B.data e.1) else dictFind res.data q := by
        intro q
        rw [Code.setElement_find]
      have habs' : ∀ f ∈ rest, dictMem A.data f.1 = false →
          dictFind (Code.setElement res e.1.1 e.1.2 (dictGet B.data e.1)).data f.1 = none := by
        intro f hf hfm
        rw [hfind1]
        have hne : ¬ f.1 = e.1 := fun hc => hnd.1 (hc ▸ List.mem_map_of_mem _ hf)
        rw [if_neg hne]
        exact habs f (List.mem_cons_of_mem _ hf) hfm
      rw [ih hnd.2 _ habs' p]
      by_cases hp : p ∈ rest.map (fun x => x.1) ∧ dictMem A.data p = false
      · have hp' : p ∈ (e :: rest).map (fun x => x.1) ∧ dictMem A.data p = false :=
          ⟨by simp [hp.1], hp.2⟩
        rw [if_pos hp, if_pos hp']
      · rw [if_neg hp, hfind1 p]
        by_cases hpe : p = e.1
        · have hp' : p ∈ (e :: rest).map (fun x => x.1) ∧ dictMem A.data p = false :=
            ⟨by simp [hpe], by rw [hpe]; exact hmAe⟩
          rw [if_pos hpe, if_pos hp', hpe]
        · have hp' : ¬(p ∈ (e :: rest).map (fun x => x.1) ∧ dictMem A.data p = false) := by
            rintro ⟨hmem, hfalse⟩
            simp only [List.map_cons, List.mem_cons] at hmem
            rcases hmem with h | h
            · exact hpe h
            · exact hp ⟨h, hfalse⟩
          rw [if_neg hpe, if_neg hp']

end SparseSpec


namespace SparseSpec

theorem toOpt_getD (x : Int) : (toOpt x).getD 0 = x := by
  by_cases h : x = 0 <;> simp [toOpt, h]

theorem code_add_char (A B : SparseMatrix) (hA : Wf A) (hB : Wf B)
    (hr : A.rows = B.rows) (hc : A.cols = B.cols) :
    ∃ C, Code.add A B = .ok C ∧ C.rows = A.rows ∧ C.cols = A.cols ∧
      ∀ p, dictFind C.data p = toOpt (sumAB A B p) := by
  have hcond : ¬(A.rows ≠ B.rows ∨ A.cols ≠ B.cols) := by
    push_neg
    exact ⟨hr, hc⟩
  rw [Code.add, if_neg hcond]
  dsimp only
  have habs1 : ∀ e ∈ A.data,
      dictFind (⟨A.rows, A.cols, []⟩ : SparseMatrix).data e.1 = none := fun e _ => rfl
  have hr1 := code_add_loop1 A B A.data hA.2.2.2 ⟨A.rows, A.cols, []⟩ habs1
  have habs2 : ∀ e ∈ B.data, dictMem A.data e.1 = false →
      dictFind (A.data.foldl (fun res e => Code.setElement res e.1.1 e.1.2
        (dictGet A.data e.1 + Code.getElement B e.1.1 e.1.2))
        (⟨A.rows, A.cols, []⟩ : SparseMatrix)).data e.1 = none := by
    intro e _ hm
    rw [hr1 e.1]
    have hnA : e.1 ∉ A.data.map (fun x => x.1) := by
      intro hcmem
      rw [← dictMem_iff_mem_keys] at hcmem
      rw [hm] at hcmem
      simp at hcmem
    rw [if_neg hnA]
    rfl
  have hr2 := code_add_loop2 A B B.data hB.2.2.2 _ habs2
  have hf2 : ∀ (m : SparseMatrix) (e : (Int × Int) × Int),
      (if dictMem A.data e.1 then m
       else Code.setElement m e.1.1 e.1.2 (dictGet B.data e.1)).rows = m.rows ∧
      (if dictMem A.data e.1 then m
       else Code.setElement m e.1.1 e.1.2 (dictGet B.data e.1)).cols = m.cols := by
    intro m e
    by_cases hm : dictMem A.data e.1
    · rw [if_pos hm]; exact ⟨rfl, rfl⟩
    · rw [if_neg hm]; exact Code.setElement_shape m e.1.1 e.1.2 _
  refine ⟨_, rfl, ?_, ?_, ?_⟩
  · exact (foldl_shape _ hf2 B.data _).1.trans
      ((foldl_shape _ (fun m e => Code.setElement_shape m e.1.1 e.1.2 _) A.data _).1)
  · exact (foldl_shape _ hf2 B.data _).2.trans
      ((foldl_shape _ (fun m e => Code.setElement_shape m e.1.1 e.1.2 _) A.data _).2)
  · intro p
    rw [hr2 p]
    by_cases hpB : p ∈ B.data.map (fun x => x.1) ∧ dictMem A.data p = false
    · rw [if_pos hpB]
      have hA0 : dictGet A.data p = 0 := by
        rw [dictGet, dictFind_none_of_not_mem _ _ (by simp [hpB.2])]
        rfl
      rw [sumAB, hA0, zero_add]
    · rw [if_neg hpB, hr1 p]
      by_cases hpA : p ∈ A.data.map (fun x => x.1)
      · rw [if_pos hpA]
      · rw [if_neg hpA]
        have hAn : dictFind A.data p = none :=
          dictFind_none_of_not_mem _ _ (fun hcm => hpA ((dictMem_iff_mem_keys _ _).mp hcm))
        have hAf : dictMem A.data p = false := by simp [dictMem, hAn]
        have hpB' : p ∉ B.data.map (fun x => x.1) := fun hcm => hpB ⟨hcm, hAf⟩
        have hBn : dictFind B.data p = none :=
          dictFind_none_of_not_mem _ _ (fun hcm => hpB' ((dictMem_iff_mem_keys _ _).mp hcm))
        simp [dictFind, sumAB, dictGet, hAn, hBn, toOpt]

theorem if_merge_step (rd : Dict) (e : (Int × Int) × Int) (hnz : e.2 ≠ 0) (q : Int × Int) :
    dictFind (if dictMem rd e.1 then
        let rd2 := dictInsert rd e.1 (dictGet rd e.1 + e.2)
        if dictGet rd2 e.1 = 0 then dictDelete rd2 e.1 else rd2
      else dictInsert rd e.1 e.2) q
    = if q = e.1 then toOpt (dictGet rd e.1 + e.2) else dictFind rd q := by
  have hval : dictGet (dictInsert rd e.1 (dictGet rd e.1 + e.2)) e.1
      = dictGet rd e.1 + e.2 := by
    rw [dictGet, dictFind_insert, if_pos rfl]
    rfl
  by_cases hm : dictMem rd e.1
  · rw [if_pos hm]
    dsimp only
    by_cases h0 : dictGet rd e.1 + e.2 = 0
    · rw [if_pos (hval.trans h0)]
      by_cases hq : q = e.1
      · rw [if_pos hq, dictFind_delete, if_pos hq, toOpt, if_pos h0]
      · rw [if_neg hq, dictFind_delete, if_neg hq, dictFind_insert, if_neg hq]
    · rw [if_neg (fun hcm => h0 (hval.symm.trans hcm))]
      by_cases hq : q = e.1
      · rw [if_pos hq, dictFind_insert, if_pos hq, toOpt, if_neg h0]
      · rw [if_neg hq, dictFind_insert, if_neg hq]
  · rw [if_neg hm]
    have hg0 : dictGet rd e.1 = 0 := by
      rw [dictGet, dictFind_none_of_not_mem _ _ hm]
      rfl
    by_cases hq : q = e.1
    · rw [if_pos hq, dictFind_insert, if_pos hq, hg0, zero_add, toOpt, if_neg hnz]
    · rw [if_neg hq, dictFind_insert, if_neg hq]

theorem if_add_loop (B : SparseMatrix) (l : Dict) :
    (∀ e ∈ l, dictFind B.data e.1 = some e.2) →
    (∀ e ∈ l, e.2 ≠ 0) →
    (l.map (fun e => e.1)).Nodup →
    ∀ rd : Dict, ∀ p,
      dictFind (l.foldl (fun rd e =>
        if dictMem rd e.1 then
          let rd2 := dictInsert rd e.1 (dictGet rd e.1 + e.2)
          if dictGet rd2 e.1 = 0 then dictDelete rd2 e.1 else rd2
        else dictInsert rd e.1 e.2) rd) p
      = if p ∈ l.map (fun x => x.1) then toOpt (dictGet rd p + dictGet B.data p)
        else dictFind rd p := by
  induction l with
  | nil =>
    intro _ _ _ rd p
    simp
  | cons e rest ih =>
    intro hsub hnz hnd rd p
    rw [List.map_cons, List.nodup_cons] at hnd
    rw [List.foldl_cons]
    rw [ih (fun f hf => hsub f (List.mem_cons_of_mem _ hf))
        (fun f hf => hnz f (List.mem_cons_of_mem _ hf)) hnd.2 _ p]
    have hez : e.2 ≠ 0 := hnz e (List.mem_cons_self _ _)
    by_cases hp : p ∈ rest.map (fun x => x.1)
    · have hp' : p ∈ (e :: rest).map (fun x => x.1) := by simp [hp]
      rw [if_pos hp, if_pos hp']
      have hpe : ¬ p = e.1 := fun hcm => hnd.1 (hcm ▸ hp)
      have hsame : dictFind (if dictMem rd e.1 then
          let rd2 := dictInsert rd e.1 (dictGet rd e.1 + e.2)
          if dictGet rd2 e.1 = 0 then dictDelete rd2 e.1 else rd2
        else dictInsert rd e.1 e.2) p = dictFind rd p := by
        rw [if_merge_step rd e hez p, if_neg hpe]
      rw [dictGet, hsame, ← dictGet]
    · rw [if_neg hp, if_merge_step rd e hez p]
      by_cases hpe : p = e.1
      · have hp' : p ∈ (e :: rest).map (fun x => x.1) := by simp [hpe]
        rw [if_pos hpe, if_pos hp', hpe]
        have hBe : dictGet B.data e.1 = e.2 := by
          rw [dictGet, hsub e (List.mem_cons_self _ _)]
          rfl
        rw [hBe]
      · have hp' : p ∉ (e :: rest).map (fun x => x.1) := by
          simp only [List.map_cons, List.mem_cons]
          rintro (h | h)
          · exact hpe h
          · exact hp h
        rw [if_neg hpe, if_neg hp']

theorem if_add_char (A B : SparseMatrix) (hA : Wf A) (hB : Wf B)
    (hr : A.rows = B.rows) (hc : A.cols = B.cols) :
    ∃ D, IntegralFile.add A B = .ok D ∧ D.rows = A.rows ∧ D.cols = A.cols ∧
      ∀ p, dictFind D.data p = toOpt (sumAB A B p) := by
  have hcond : ¬(A.rows ≠ B.rows ∨ A.cols ≠ B.cols) := by
    push_neg
    exact ⟨hr, hc⟩
  rw [IntegralFile.add, if_neg hcond]
  dsimp only
  refine ⟨_, rfl, rfl, rfl, ?_⟩
  intro p
  rw [if_add_loop B B.data (dictFind_self B.data hB.2.2.2)
      (fun e he => (hB.2.2.1 e he).2.2.2.2) hB.2.2.2 A.data p]
  by_cases hpB : p ∈ B.data.map (fun x => x.1)
  · rw [if_pos hpB]
    rfl
  · rw [if_neg hpB]
    have hBn : dictFind B.data p = none :=
      dictFind_none_of_not_mem _ _ (fun hcm => hpB ((dictMem_iff_mem_keys _ _).mp hcm))
    have hB0 : dictGet B.data p = 0 := by rw [dictGet, hBn]; rfl
    rw [wf_find_eq_toOpt A hA p, sumAB, hB0, add_zero]

end SparseSpec

namespace SparseSpec

/-- C5: in both variants, `add` rejects mismatched shapes with
`DimensionMismatch`; on matching shapes it returns a matrix of the same
shape whose value at every coordinate of either operand's entry set is
`A.get(coord) + B.get(coord)`, with zero sums elided and coordinates absent
from both operands absent from the result. -/
theorem claim5_add_spec (A B : SparseMatrix) (hA : Wf A) (hB : Wf B) :
    (¬(A.rows = B.rows ∧ A.cols = B.cols) →
      Code.add A B = .error .DimensionMismatch ∧
      IntegralFile.add A B = .error .DimensionMismatch) ∧
    (A.rows = B.rows → A.cols = B.cols →
      ∃ C D, Code.add A B = .ok C ∧ IntegralFile.add A B = .ok D ∧
        C.rows = A.rows ∧ C.cols = A.cols ∧ D.rows = A.rows ∧ D.cols = A.cols ∧
        (∀ p, dictMem A.data p = true ∨ dictMem B.data p = true →
          dictGet C.data p = sumAB A B p ∧ dictGet D.data p = sumAB A B p) ∧
        (∀ p, sumAB A B p = 0 →
          dictMem C.data p = false ∧ dictMem D.data p = false) ∧
        (∀ p, dictMem A.data p = false → dictMem B.data p = false →
          dictMem C.data p = false ∧ dictMem D.data p = false)) := by
  constructor
  · intro h
    have hcond : A.rows ≠ B.rows ∨ A.cols ≠ B.cols := by
      by_contra hcc
      push_neg at hcc
      exact h ⟨hcc.1, hcc.2⟩
    exact ⟨by rw [Code.add, if_pos hcond], by rw [IntegralFile.add, if_pos hcond]⟩
  · intro hr hc
    obtain ⟨C, hC, hCr, hCc, hCf⟩ := code_add_char A B hA hB hr hc
    obtain ⟨D, hD, hDr, hDc, hDf⟩ := if_add_char A B hA hB hr hc
    refine ⟨C, D, hC, hD, hCr, hCc, hDr, hDc, ?_, ?_, ?_⟩
    · intro p _
      constructor
      · rw [dictGet, hCf p, toOpt_getD]
      · rw [dictGet, hDf p, toOpt_getD]
    · intro p hs
      constructor
      · simp [dictMem, hCf p, hs, toOpt]
      · simp [dictMem, hDf p, hs, toOpt]
    · intro p hpa hpb
      have hs : sumAB A B p = 0 := by
        rw [sumAB, dictGet, dictFind_none_of_not_mem _ _ (by simp [hpa]),
          dictGet, dictFind_none_of_not_mem _ _ (by simp [hpb])]
        rfl
      constructor
      · simp [dictMem, hCf p, hs, toOpt]
      · simp [dictMem, hDf p, hs, toOpt]

/-- Instantiation of the C5 theorem at the spec's concrete scenario:
adding `{(0,0) ↦ 1, (1,1) ↦ 2}` and `{(0,0) ↦ -1}` (both `2 × 2`). -/
theorem claim5_add_spec_witness :
    Wf ⟨2, 2, [((0, 0), 1), ((1, 1), 2)]⟩ ∧ Wf ⟨2, 2, [((0, 0), -1)]⟩ ∧
    ((¬((2 : Int) = 2 ∧ (2 : Int) = 2) →
      Code.add ⟨2, 2, [((0, 0), 1), ((1, 1), 2)]⟩ ⟨2, 2, [((0, 0), -1)]⟩
        = .error .DimensionMismatch ∧
      IntegralFile.add ⟨2, 2, [((0, 0), 1), ((1, 1), 2)]⟩ ⟨2, 2, [((0, 0), -1)]⟩
        = .error .DimensionMismatch) ∧
    ((2 : Int) = 2 → (2 : Int) = 2 →
      ∃ C D,
        Code.add ⟨2, 2, [((0, 0), 1), ((1, 1), 2)]⟩ ⟨2, 2, [((0, 0), -1)]⟩ = .ok C ∧
        IntegralFile.add ⟨2, 2, [((0, 0), 1), ((1, 1), 2)]⟩ ⟨2, 2, [((0, 0), -1)]⟩ = .ok D ∧
        C.rows = 2 ∧ C.cols = 2 ∧ D.rows = 2 ∧ D.cols = 2 ∧
        (∀ p, dictMem [((0, 0), 1), ((1, 1), 2)] p = true ∨
              dictMem [((0, 0), -1)] p = true →
          dictGet C.data p
            = sumAB ⟨2, 2, [((0, 0), 1), ((1, 1), 2)]⟩ ⟨2, 2, [((0, 0), -1)]⟩ p ∧
          dictGet D.data p
            = sumAB ⟨2, 2, [((0, 0), 1), ((1, 1), 2)]⟩ ⟨2, 2, [((0, 0), -1)]⟩ p) ∧
        (∀ p, sumAB ⟨2, 2, [((0, 0), 1), ((1, 1), 2)]⟩ ⟨2, 2, [((0, 0), -1)]⟩ p = 0 →
          dictMem C.data p = false ∧ dictMem D.data p = false) ∧
        (∀ p, dictMem [((0, 0), 1), ((1, 1), 2)] p = false →
              dictMem [((0, 0), -1)] p = false →
          dictMem C.data p = false ∧ dictMem D.data p = false))) :=
  ⟨by decide, by decide,
   claim5_add_spec ⟨2, 2, [((0, 0), 1), ((1, 1), 2)]⟩ ⟨2, 2, [((0, 0), -1)]⟩
     (by decide) (by decide)⟩

end SparseSpec

namespace SparseSpec

theorem foldl_add_eq_sum (l : List Int) (g : Int → Int) :
    ∀ a : Int, l.foldl (fun t k => t + g k) a = a + (l.map g).sum := by
  induction l with
  | nil => intro a; simp
  | cons k rest ih =>
    intro a
    rw [List.foldl_cons, ih, List.map_cons, List.sum_cons]
    ring

theorem mem_intRange (n x : Int) : x ∈ intRange n ↔ 0 ≤ x ∧ x < n := by
  simp only [intRange, List.mem_map, List.mem_range]
  constructor
  · rintro ⟨m, hm, rfl⟩
    constructor
    · exact Int.ofNat_nonneg m
    · have hlt : (m : Int) < n := by omega
      exact hlt
  · rintro ⟨h0, h1⟩
    refine ⟨x.toNat, by omega, ?_⟩
    exact Int.toNat_of_nonneg h0

theorem intRange_nodup (n : Int) : (intRange n).Nodup :=
  (List.nodup_range n.toNat).map (fun _ _ h => Int.ofNat.inj h)

theorem wf_find_out (m : SparseMatrix) (hm : Wf m) (r c : Int)
    (h : ¬(0 ≤ r ∧ r < m.rows) ∨ ¬(0 ≤ c ∧ c < m.cols)) :
    dictFind m.data (r, c) = none := by
  apply dictFind_none_of_not_mem
  intro hmem
  rw [dictMem_iff_mem_keys] at hmem
  obtain ⟨e, he, hpe⟩ := List.mem_map.mp hmem
  have hb := hm.2.2.1 e he
  have h1 : e.1.1 = r := by rw [hpe]
  have h2 : e.1.2 = c := by rw [hpe]
  rcases h with h | h
  · exact h ⟨h1 ▸ hb.1, h1 ▸ hb.2.1⟩
  · exact h ⟨h2 ▸ hb.2.2.1, h2 ▸ hb.2.2.2.1⟩

theorem mulSum_zero_row (A B : SparseMatrix) (hA : Wf A) (i j : Int)
    (h : ¬(0 ≤ i ∧ i < A.rows)) : mulSum A B i j = 0 := by
  rw [mulSum]
  apply List.sum_eq_zero
  intro x hx
  obtain ⟨k, _, rfl⟩ := List.mem_map.mp hx
  have hz : dictGet A.data (i, k) = 0 := by
    rw [dictGet, wf_find_out A hA i k (Or.inl h)]
    rfl
  rw [hz, zero_mul]

theorem mulSum_zero_col (A B : SparseMatrix) (hB : Wf B) (i j : Int)
    (h : ¬(0 ≤ j ∧ j < B.cols)) : mulSum A B i j = 0 := by
  rw [mulSum]
  apply List.sum_eq_zero
  intro x hx
  obtain ⟨k, _, rfl⟩ := List.mem_map.mp hx
  have hz : dictGet B.data (k, j) = 0 := by
    rw [dictGet, wf_find_out B hB k j (Or.inr h)]
    rfl
  rw [hz, mul_zero]

theorem accum_step (rd : Dict) (key : Int × Int) (dv : Int) (q : Int × Int) :
    dictFind (if dictGet (dictInsert rd key (dictGet rd key + dv)) key = 0
        then dictDelete (dictInsert rd key (dictGet rd key + dv)) key
        else dictInsert rd key (dictGet rd key + dv)) q
      = if q = key then toOpt (dictGet rd key + dv) else dictFind rd q := by
  have hval : dictGet (dictInsert rd key (dictGet rd key + dv)) key
      = dictGet rd key + dv := by
    rw [dictGet, dictFind_insert, if_pos rfl]
    rfl
  by_cases h0 : dictGet rd key + dv = 0
  · rw [if_pos (hval.trans h0)]
    by_cases hq : q = key
    · rw [if_pos hq, dictFind_delete, if_pos hq, toOpt, if_pos h0]
    · rw [if_neg hq, dictFind_delete, if_neg hq, dictFind_insert, if_neg hq]
  · rw [if_neg (fun hcm => h0 (hval.symm.trans hcm))]
    by_cases hq : q = key
    · rw [if_pos hq, dictFind_insert, if_pos hq, toOpt, if_neg h0]
    · rw [if_neg hq, dictFind_insert, if_neg hq]

end SparseSpec


namespace SparseSpec

theorem mulTotal_eq_mulSum (A B : SparseMatrix) (i j : Int) :
    Code.mulTotal A B i j = mulSum A B i j := by
  rw [Code.mulTotal, mulSum, foldl_add_eq_sum, zero_add]
  rfl

theorem code_mulColLoop_shape (A B : SparseMatrix) (i : Int) (js : List Int) :
    ∀ res, (Code.mulColLoop A B i js res).rows = res.rows ∧
           (Code.mulColLoop A B i js res).cols = res.cols := by
  induction js with
  | nil => intro res; exact ⟨rfl, rfl⟩
  | cons j rest ih =>
    intro res
    rw [Code.mulColLoop]
    refine ⟨(ih _).1.trans ?_, (ih _).2.trans ?_⟩
    · by_cases ht : Code.mulTotal A B i j ≠ 0
      · rw [if_pos ht]
        exact (Code.setElement_shape res i j _).1
      · rw [if_neg ht]
    · by_cases ht : Code.mulTotal A B i j ≠ 0
      · rw [if_pos ht]
        exact (Code.setElement_shape res i j _).2
      · rw [if_neg ht]

theorem code_mulRowLoop_shape (A B : SparseMatrix) (is : List Int) :
    ∀ res, (Code.mulRowLoop A B is res).rows = res.rows ∧
           (Code.mulRowLoop A B is res).cols = res.cols := by
  induction is with
  | nil => intro res; exact ⟨rfl, rfl⟩
  | cons i rest ih =>
    intro res
    rw [Code.mulRowLoop]
    exact ⟨(ih _).1.trans (code_mulColLoop_shape A B i _ res).1,
           (ih _).2.trans (code_mulColLoop_shape A B i _ res).2⟩

theorem code_mulColLoop_char (A B : SparseMatrix) (i : Int) (js : List Int) :
    js.Nodup →
    ∀ res : SparseMatrix, (∀ j ∈ js, dictFind res.data (i, j) = none) →
    ∀ p, dictFind (Code.mulColLoop A B i js res).data p
      = if p.1 = i ∧ p.2 ∈ js then toOpt (mulSum A B i p.2) else dictFind res.data p := by
  induction js with
  | nil =>
    intro _ res _ p
    simp [Code.mulColLoop]
  | cons j rest ih =>
    intro hnd res habs p
    rw [List.nodup_cons] at hnd
    rw [Code.mulColLoop]
    have hstep : ∀ q, dictFind (if Code.mulTotal A B i j ≠ 0
        then Code.setElement res i j (Code.mulTotal A B i j) else res).data q
        = if q = (i, j) then toOpt (mulSum A B i j) else dictFind res.data q := by
      intro q
      by_cases ht : Code.mulTotal A B i j ≠ 0
      · rw [if_pos ht, Code.setElement_find, mulTotal_eq_mulSum]
      · rw [if_neg ht]
        push_neg at ht
        by_cases hq : q = (i, j)
        · rw [if_pos hq, hq, habs j (List.mem_cons_self _ _), ← mulTotal_eq_mulSum, ht]
          simp [toOpt]
        · rw [if_neg hq]
    have habs' : ∀ j' ∈ rest, dictFind (if Code.mulTotal A B i j ≠ 0
        then Code.setElement res i j (Code.mulTotal A B i j) else res).data (i, j') = none := by
      intro j' hj'
      rw [hstep]
      have hne : ¬ ((i, j') : Int × Int) = (i, j) := by
        intro hcm
        have hjj : j' = j := congrArg Prod.snd hcm
        exact hnd.1 (hjj ▸ hj')
      rw [if_neg hne]
      exact habs j' (List.mem_cons_of_mem _ hj')
    rw [ih hnd.2 _ habs' p]
    by_cases hp : p.1 = i ∧ p.2 ∈ rest
    · have hp' : p.1 = i ∧ p.2 ∈ j :: rest := ⟨hp.1, List.mem_cons_of_mem _ hp.2⟩
      rw [if_pos hp, if_pos hp']
    · rw [if_neg hp, hstep p]
      by_cases hpe : p = (i, j)
      · have hp' : p.1 = i ∧ p.2 ∈ j :: rest := by
          rw [hpe]
          exact ⟨rfl, List.mem_cons_self _ _⟩
        rw [if_pos hpe, if_pos hp', hpe]
      · have hp' : ¬(p.1 = i ∧ p.2 ∈ j :: rest) := by
          rintro ⟨h1, h2⟩
          rcases List.mem_cons.mp h2 with hh | hh
          · refine hpe ?_
            obtain ⟨p1, p2⟩ := p
            simp only at h1 hh
            rw [h1, hh]
          · exact hp ⟨h1, hh⟩
        rw [if_neg hpe, if_neg hp']

theorem code_mulRowLoop_char (A B : SparseMatrix) (is : List Int) :
    is.Nodup →
    ∀ res : SparseMatrix, (∀ p : Int × Int, p.1 ∈ is → dictFind res.data p = none) →
    ∀ p, dictFind (Code.mulRowLoop A B is res).data p
      = if p.1 ∈ is ∧ p.2 ∈ intRange B.cols then toOpt (mulSum A B p.1 p.2)
        else dictFind res.data p := by
  induction is with
  | nil =>
    intro _ res _ p
    simp [Code.mulRowLoop]
  | cons i rest ih =>
    intro hnd res habs p
    rw [List.nodup_cons] at hnd
    rw [Code.mulRowLoop]
    have hcol := code_mulColLoop_char A B i (intRange B.cols) (intRange_nodup _) res
      (fun j _ => habs (i, j) (List.mem_cons_self _ _))
    have habs' : ∀ q : Int × Int, q.1 ∈ rest →
        dictFind (Code.mulColLoop A B i (intRange B.cols) res).data q = none := by
      intro q hq
      rw [hcol q]
      have hne : ¬(q.1 = i ∧ q.2 ∈ intRange B.cols) := by
        rintro ⟨h1, _⟩
        exact hnd.1 (h1 ▸ hq)
      rw [if_neg hne]
      exact habs q (List.mem_cons_of_mem _ hq)
    rw [ih hnd.2 _ habs' p]
    by_cases hp : p.1 ∈ rest ∧ p.2 ∈ intRange B.cols
    · have hp' : p.1 ∈ i :: rest ∧ p.2 ∈ intRange B.cols :=
        ⟨List.mem_cons_of_mem _ hp.1, hp.2⟩
      rw [if_pos hp, if_pos hp']
    · rw [if_neg hp, hcol p]
      by_cases hpe : p.1 = i ∧ p.2 ∈ intRange B.cols
      · have hp' : p.1 ∈ i :: rest ∧ p.2 ∈ intRange B.cols :=
          ⟨by rw [hpe.1]; exact List.mem_cons_self _ _, hpe.2⟩
        rw [if_pos hpe, if_pos hp', hpe.1]
      · have hp' : ¬(p.1 ∈ i :: rest ∧ p.2 ∈ intRange B.cols) := by
          rintro ⟨h1, h2⟩
          rcases List.mem_cons.mp h1 with hh | hh
          · exact hpe ⟨hh, h2⟩
          · exact hp ⟨hh, h2⟩
        rw [if_neg hpe, if_neg hp']

theorem code_mul_char (A B : SparseMatrix) (hA : Wf A) (hB : Wf B)
    (h : A.cols = B.rows) :
    ∃ C, Code.multiply A B = .ok C ∧ C.rows = A.rows ∧ C.cols = B.cols ∧
      ∀ p : Int × Int, dictFind C.data p = toOpt (mulSum A B p.1 p.2) := by
  rw [Code.multiply, if_neg (by rw [h]; exact fun hc => hc rfl)]
  refine ⟨_, rfl, ?_, ?_, ?_⟩
  · exact (code_mulRowLoop_shape A B (intRange A.rows) ⟨A.rows, B.cols, []⟩).1
  · exact (code_mulRowLoop_shape A B (intRange A.rows) ⟨A.rows, B.cols, []⟩).2
  · intro p
    rw [code_mulRowLoop_char A B (intRange A.rows) (intRange_nodup _)
      ⟨A.rows, B.cols, []⟩ (fun q _ => rfl) p]
    by_cases hp : p.1 ∈ intRange A.rows ∧ p.2 ∈ intRange B.cols
    · rw [if_pos hp]
    · rw [if_neg hp]
      have hz : mulSum A B p.1 p.2 = 0 := by
        rcases not_and_or.mp hp with hout | hout
        · exact mulSum_zero_row A B hA p.1 p.2 (by rw [mem_intRange] at hout; exact hout)
        · exact mulSum_zero_col A B hB p.1 p.2 (by rw [mem_intRange] at hout; exact hout)
      rw [hz]
      simp [dictFind, toOpt]

end SparseSpec

namespace SparseSpec

theorem find_toOpt_self (d : Dict) (p : Int × Int) (x : Int)
    (h : dictFind d p = toOpt x) : dictFind d p = toOpt (dictGet d p) := by
  rw [dictGet, h, toOpt_getD]

theorem if_mulInner_char (B : SparseMatrix) (i k v : Int)
    (hk0 : 0 ≤ k) (hk1 : k < B.rows) (js : List Int) :
    js.Nodup → (∀ j ∈ js, 0 ≤ j ∧ j < B.cols) →
    ∀ rd : Dict, (∀ p, dictFind rd p = toOpt (dictGet rd p)) →
    ∃ rd', IntegralFile.mulInner B i k v js rd = .ok rd' ∧
      ∀ p : Int × Int, dictFind rd' p
        = if p.1 = i ∧ p.2 ∈ js
          then toOpt (dictGet rd p + v * dictGet B.data (k, p.2))
          else dictFind rd p := by
  induction js with
  | nil =>
    intro _ _ rd _
    exact ⟨rd, rfl, fun p => by simp⟩
  | cons j rest ih =>
    intro hnd hbnd rd helide
    rw [List.nodup_cons] at hnd
    have hj := hbnd j (List.mem_cons_self _ _)
    have hget : IntegralFile.getElement B k j = .ok (dictGet B.data (k, j)) := by
      rw [IntegralFile.getElement, if_neg (by omega)]
    rw [IntegralFile.mulInner, hget]
    dsimp only
    by_cases hv : dictGet B.data (k, j) ≠ 0
    · rw [if_pos hv]
      have hfind1 := accum_step rd (i, j) (v * dictGet B.data (k, j))
      have helide1 : ∀ p, dictFind (if dictGet (dictInsert rd (i, j)
          (dictGet rd (i, j) + v * dictGet B.data (k, j))) (i, j) = 0
          then dictDelete (dictInsert rd (i, j)
            (dictGet rd (i, j) + v * dictGet B.data (k, j))) (i, j)
          else dictInsert rd (i, j)
            (dictGet rd (i, j) + v * dictGet B.data (k, j))) p
          = toOpt (dictGet (if dictGet (dictInsert rd (i, j)
          (dictGet rd (i, j) + v * dictGet B.data (k, j))) (i, j) = 0
          then dictDelete (dictInsert rd (i, j)
            (dictGet rd (i, j) + v * dictGet B.data (k, j))) (i, j)
          else dictInsert rd (i, j)
            (dictGet rd (i, j) + v * dictGet B.data (k, j))) p) := by
        intro p
        apply find_toOpt_self _ _ (if p = (i, j)
          then dictGet rd (i, j) + v * dictGet B.data (k, j) else dictGet rd p)
        rw [hfind1 p]
        by_cases hq : p = (i, j)
        · rw [if_pos hq, if_pos hq]
        · rw [if_neg hq, if_neg hq, helide p]
      obtain ⟨rd', hok, hchar⟩ := ih hnd.2
        (fun j' hj' => hbnd j' (List.mem_cons_of_mem _ hj')) _ helide1
      refine ⟨rd', hok, ?_⟩
      intro p
      rw [hchar p]
      by_cases hp : p.1 = i ∧ p.2 ∈ rest
      · have hp' : p.1 = i ∧ p.2 ∈ j :: rest := ⟨hp.1, List.mem_cons_of_mem _ hp.2⟩
        rw [if_pos hp, if_pos hp']
        have hpne : ¬ p = (i, j) := by
          intro hcc
          have h2 : p.2 = j := congrArg Prod.snd hcc
          exact hnd.1 (h2 ▸ hp.2)
        have hgeq : dictGet (if dictGet (dictInsert rd (i, j)
            (dictGet rd (i, j) + v * dictGet B.data (k, j))) (i, j) = 0
            then dictDelete (dictInsert rd (i, j)
              (dictGet rd (i, j) + v * dictGet B.data (k, j))) (i, j)
            else dictInsert rd (i, j)
              (dictGet rd (i, j) + v * dictGet B.data (k, j))) p = dictGet rd p := by
          rw [dictGet, hfind1 p, if_neg hpne, dictGet]
        rw [hgeq]
      · rw [if_neg hp, hfind1 p]
        by_cases hq : p = (i, j)
        · have hp' : p.1 = i ∧ p.2 ∈ j :: rest := by
            rw [hq]
            exact ⟨rfl, List.mem_cons_self _ _⟩
          rw [if_pos hq, if_pos hp', hq]
        · have hp' : ¬(p.1 = i ∧ p.2 ∈ j :: rest) := by
            rintro ⟨h1, h2⟩
            rcases List.mem_cons.mp h2 with hh | hh
            · refine hq ?_
              obtain ⟨p1, p2⟩ := p
              simp only at h1 hh
              rw [h1, hh]
            · exact hp ⟨h1, hh⟩
          rw [if_neg hq, if_neg hp']
    · rw [if_neg hv]
      push_neg at hv
      obtain ⟨rd', hok, hchar⟩ := ih hnd.2
        (fun j' hj' => hbnd j' (List.mem_cons_of_mem _ hj')) rd helide
      refine ⟨rd', hok, ?_⟩
      intro p
      rw [hchar p]
      by_cases hp : p.1 = i ∧ p.2 ∈ rest
      · have hp' : p.1 = i ∧ p.2 ∈ j :: rest := ⟨hp.1, List.mem_cons_of_mem _ hp.2⟩
        rw [if_pos hp, if_pos hp']
      · rw [if_neg hp]
        by_cases hq : p.1 = i ∧ p.2 = j
        · have hp' : p.1 = i ∧ p.2 ∈ j :: rest :=
            ⟨hq.1, by rw [hq.2]; exact List.mem_cons_self _ _⟩
          rw [if_pos hp', helide p, hq.2, hv, mul_zero, add_zero]
        · have hp' : ¬(p.1 = i ∧ p.2 ∈ j :: rest) := by
            rintro ⟨h1, h2⟩
            rcases List.mem_cons.mp h2 with hh | hh
            · exact hq ⟨h1, hh⟩
            · exact hp ⟨h1, hh⟩
          rw [if_neg hp']

end SparseSpec

namespace SparseSpec

theorem if_mulOuter_char (B : SparseMatrix) (hB : Wf B) (l : Dict) :
    (∀ e ∈ l, 0 ≤ e.1.2 ∧ e.1.2 < B.rows) →
    ∀ rd : Dict, (∀ p, dictFind rd p = toOpt (dictGet rd p)) →
    ∃ rd', IntegralFile.mulOuter B l rd = .ok rd' ∧
      ∀ p : Int × Int, dictFind rd' p
        = toOpt (dictGet rd p +
            (l.map (fun e => if e.1.1 = p.1 then e.2 * dictGet B.data (e.1.2, p.2)
              else 0)).sum) := by
  induction l with
  | nil =>
    intro _ rd helide
    refine ⟨rd, rfl, ?_⟩
    intro p
    rw [List.map_nil, List.sum_nil, add_zero]
    exact helide p
  | cons e rest ih =>
    intro hbnd rd helide
    have hk := hbnd e (List.mem_cons_self _ _)
    obtain ⟨rd1, hok1, hchar1⟩ := if_mulInner_char B e.1.1 e.1.2 e.2 hk.1 hk.2
      (intRange B.cols) (intRange_nodup _)
      (fun j hj => (mem_intRange _ _).mp hj) rd helide
    have hfull : ∀ p : Int × Int, dictFind rd1 p
        = toOpt (dictGet rd p +
            (if e.1.1 = p.1 then e.2 * dictGet B.data (e.1.2, p.2) else 0)) := by
      intro p
      rw [hchar1 p]
      by_cases hp : p.1 = e.1.1 ∧ p.2 ∈ intRange B.cols
      · rw [if_pos hp, if_pos hp.1.symm]
      · rw [if_neg hp]
        by_cases h1 : e.1.1 = p.1
        · have hout : p.2 ∉ intRange B.cols := fun hmem => hp ⟨h1.symm, hmem⟩
          have hz : dictGet B.data (e.1.2, p.2) = 0 := by
            rw [dictGet, wf_find_out B hB e.1.2 p.2
              (Or.inr (by rw [mem_intRange] at hout; exact hout))]
            rfl
          rw [if_pos h1, hz, mul_zero, add_zero]
          exact helide p
        · rw [if_neg h1, add_zero]
          exact helide p
    have helide1 : ∀ p, dictFind rd1 p = toOpt (dictGet rd1 p) := by
      intro p
      exact find_toOpt_self _ _ _ (hfull p)
    obtain ⟨rd', hok, hchar⟩ := ih (fun f hf => hbnd f (List.mem_cons_of_mem _ hf)) rd1 helide1
    refine ⟨rd', ?_, ?_⟩
    · rw [IntegralFile.mulOuter, hok1]
      exact hok
    · intro p
      rw [hchar p]
      have hg1 : dictGet rd1 p = dictGet rd p
          + (if e.1.1 = p.1 then e.2 * dictGet B.data (e.1.2, p.2) else 0) := by
        rw [dictGet, hfull p, toOpt_getD]
      rw [hg1, List.map_cons, List.sum_cons, add_assoc]

theorem dense_sum_sparse (l : Dict) (i : Int) (f : Int → Int) :
    ∀ ks : List Int, ks.Nodup → (l.map (fun e => e.1)).Nodup →
    (∀ e ∈ l, e.1.1 = i → e.1.2 ∈ ks) →
    (ks.map (fun k => dictGet l (i, k) * f k)).sum
      = (l.map (fun e => if e.1.1 = i then e.2 * f e.1.2 else 0)).sum := by
  induction l with
  | nil =>
    intro ks _ _ _
    rw [List.map_nil, List.sum_nil]
    apply List.sum_eq_zero
    intro x hx
    obtain ⟨k, _, rfl⟩ := List.mem_map.mp hx
    simp [dictGet, dictFind]
  | cons e rest ih =>
    intro ks hknd hlnd hbnd
    rw [List.map_cons, List.nodup_cons] at hlnd
    by_cases he : e.1.1 = i
    · have hc : e.1.2 ∈ ks := hbnd e (List.mem_cons_self _ _) he
      have hperm : ks.Perm (e.1.2 :: ks.erase e.1.2) := List.perm_cons_erase hc
      have hsum1 : (ks.map (fun k => dictGet (e :: rest) (i, k) * f k)).sum
          = ((e.1.2 :: ks.erase e.1.2).map
              (fun k => dictGet (e :: rest) (i, k) * f k)).sum :=
        (hperm.map _).sum_eq
      rw [hsum1, List.map_cons, List.sum_cons]
      have hkey : e.1 = (i, e.1.2) := by
        obtain ⟨⟨e1, e2⟩, ev⟩ := e
        simp only at he ⊢
        rw [he]
      have hhead : dictGet (e :: rest) (i, e.1.2) = e.2 := by
        rw [dictGet, dictFind, if_pos hkey]
        rfl
      have htail : ((ks.erase e.1.2).map (fun k => dictGet (e :: rest) (i, k) * f k)).sum
          = ((ks.erase e.1.2).map (fun k => dictGet rest (i, k) * f k)).sum := by
        have hcong : ∀ k ∈ ks.erase e.1.2,
            dictGet (e :: rest) (i, k) * f k = dictGet rest (i, k) * f k := by
          intro k hkm
          have hkne : k ≠ e.1.2 := ((hknd.mem_erase_iff).mp hkm).1
          have hne : ¬ e.1 = (i, k) := by
            rw [hkey]
            intro hcc
            exact hkne (congrArg Prod.snd hcc).symm
          rw [dictGet, dictFind, if_neg hne]
          rfl
        rw [List.map_congr_left hcong]
      rw [htail, hhead]
      have hbnd' : ∀ e' ∈ rest, e'.1.1 = i → e'.1.2 ∈ ks.erase e.1.2 := by
        intro e' he' hi'
        have hmem : e'.1.2 ∈ ks := hbnd e' (List.mem_cons_of_mem _ he') hi'
        have hne : e'.1.2 ≠ e.1.2 := by
          intro hcc
          apply hlnd.1
          have hkeq : e'.1 = e.1 := by
            rw [hkey]
            obtain ⟨⟨a1, a2⟩, av⟩ := e'
            simp only at hi' hcc ⊢
            rw [hi', hcc]
          rw [← hkeq]
          exact List.mem_map_of_mem _ he'
        exact (List.mem_erase_of_ne hne).mpr hmem
      rw [ih (ks.erase e.1.2) (hknd.erase _) hlnd.2 hbnd']
      rw [List.map_cons, List.sum_cons, if_pos he]
    · have hcong : ∀ k ∈ ks, dictGet (e :: rest) (i, k) * f k
          = dictGet rest (i, k) * f k := by
        intro k _
        have hne : ¬ e.1 = (i, k) := fun hcc => he (congrArg Prod.fst hcc)
        rw [dictGet, dictFind, if_neg hne]
        rfl
      rw [List.map_congr_left hcong,
        ih ks hknd hlnd.2 (fun e' he' hi' => hbnd e' (List.mem_cons_of_mem _ he') hi'),
        List.map_cons, List.sum_cons, if_neg he, zero_add]

theorem if_mul_char (A B : SparseMatrix) (hA : Wf A) (hB : Wf B)
    (h : A.cols = B.rows) :
    ∃ D, IntegralFile.multiply A B = .ok D ∧ D.rows = A.rows ∧ D.cols = B.cols ∧
      ∀ p : Int × Int, dictFind D.data p = toOpt (mulSum A B p.1 p.2) := by
  obtain ⟨rd', hok, hchar⟩ := if_mulOuter_char B hB A.data
    (fun e he => ⟨(hA.2.2.1 e he).2.2.1, h ▸ (hA.2.2.1 e he).2.2.2.1⟩)
    [] (fun p => by simp [dictFind, dictGet, toOpt])
  rw [IntegralFile.multiply, if_neg (by rw [h]; exact fun hc => hc rfl), hok]
  refine ⟨_, rfl, rfl, rfl, ?_⟩
  intro p
  rw [hchar p]
  have h0 : dictGet ([] : Dict) p = 0 := rfl
  rw [h0, zero_add]
  have hsum := dense_sum_sparse A.data p.1 (fun k => dictGet B.data (k, p.2))
    (intRange A.cols) (intRange_nodup _) hA.2.2.2
    (fun e he hi => (mem_intRange _ _).mpr
      ⟨(hA.2.2.1 e he).2.2.1, (hA.2.2.1 e he).2.2.2.1⟩)
  rw [mulSum, hsum]

end SparseSpec

namespace SparseSpec

/-- C1: in both variants, `multiply` rejects `A.cols ≠ B.rows` with
`DimensionMismatch`; otherwise it returns a matrix of shape
`(A.rows, B.cols)` whose value at every coordinate `(i, j)` is
`Σ_k A.get(i,k) * B.get(k,j)` over `0 ≤ k < A.cols`, with every
zero-valued sum absent from the entry set. -/
theorem claim1_multiply_spec (A B : SparseMatrix) (hA : Wf A) (hB : Wf B) :
    (A.cols ≠ B.rows →
      Code.multiply A B = .error .DimensionMismatch ∧
      IntegralFile.multiply A B = .error .DimensionMismatch) ∧
    (A.cols = B.rows →
      ∃ C D, Code.multiply A B = .ok C ∧ IntegralFile.multiply A B = .ok D ∧
        C.rows = A.rows ∧ C.cols = B.cols ∧ D.rows = A.rows ∧ D.cols = B.cols ∧
        (∀ i j : Int, dictGet C.data (i, j) = mulSum A B i j ∧
                      dictGet D.data (i, j) = mulSum A B i j) ∧
        (∀ i j : Int, mulSum A B i j = 0 →
          dictMem C.data (i, j) = false ∧ dictMem D.data (i, j) = false)) := by
  constructor
  · intro h
    exact ⟨by rw [Code.multiply, if_pos h], by rw [IntegralFile.multiply, if_pos h]⟩
  · intro h
    obtain ⟨C, hC, hCr, hCc, hCf⟩ := code_mul_char A B hA hB h
    obtain ⟨D, hD, hDr, hDc, hDf⟩ := if_mul_char A B hA hB h
    refine ⟨C, D, hC, hD, hCr, hCc, hDr, hDc, ?_, ?_⟩
    · intro i j
      constructor
      · rw [dictGet, hCf (i, j), toOpt_getD]
      · rw [dictGet, hDf (i, j), toOpt_getD]
    · intro i j hz
      constructor
      · simp [dictMem, hCf (i, j), hz, toOpt]
      · simp [dictMem, hDf (i, j), hz, toOpt]

/-- Instantiation of the C1 theorem at concrete `2 × 2` matrices. -/
theorem claim1_multiply_spec_witness :
    Wf ⟨2, 2, [((0, 0), 1), ((0, 1), 2), ((1, 1), 3)]⟩ ∧
    Wf ⟨2, 2, [((0, 0), 4), ((1, 0), -2), ((1, 1), 1)]⟩ ∧
    (((2 : Int) ≠ 2 →
      Code.multiply ⟨2, 2, [((0, 0), 1), ((0, 1), 2), ((1, 1), 3)]⟩
          ⟨2, 2, [((0, 0), 4), ((1, 0), -2), ((1, 1), 1)]⟩
        = .error .DimensionMismatch ∧
      IntegralFile.multiply ⟨2, 2, [((0, 0), 1), ((0, 1), 2), ((1, 1), 3)]⟩
          ⟨2, 2, [((0, 0), 4), ((1, 0), -2), ((1, 1), 1)]⟩
        = .error .DimensionMismatch) ∧
    ((2 : Int) = 2 →
      ∃ C D,
        Code.multiply ⟨2, 2, [((0, 0), 1), ((0, 1), 2), ((1, 1), 3)]⟩
          ⟨2, 2, [((0, 0), 4), ((1, 0), -2), ((1, 1), 1)]⟩ = .ok C ∧
        IntegralFile.multiply ⟨2, 2, [((0, 0), 1), ((0, 1), 2), ((1, 1), 3)]⟩
          ⟨2, 2, [((0, 0), 4), ((1, 0), -2), ((1, 1), 1)]⟩ = .ok D ∧
        C.rows = 2 ∧ C.cols = 2 ∧ D.rows = 2 ∧ D.cols = 2 ∧
        (∀ i j : Int,
          dictGet C.data (i, j)
            = mulSum ⟨2, 2, [((0, 0), 1), ((0, 1), 2), ((1, 1), 3)]⟩
                ⟨2, 2, [((0, 0), 4), ((1, 0), -2), ((1, 1), 1)]⟩ i j ∧
          dictGet D.data (i, j)
            = mulSum ⟨2, 2, [((0, 0), 1), ((0, 1), 2), ((1, 1), 3)]⟩
                ⟨2, 2, [((0, 0), 4), ((1, 0), -2), ((1, 1), 1)]⟩ i j) ∧
        (∀ i j : Int,
          mulSum ⟨2, 2, [((0, 0), 1), ((0, 1), 2), ((1, 1), 3)]⟩
              ⟨2, 2, [((0, 0), 4), ((1, 0), -2), ((1, 1), 1)]⟩ i j = 0 →
          dictMem C.data (i, j) = false ∧ dictMem D.data (i, j) = false))) :=
  ⟨by decide, by decide,
   claim1_multiply_spec ⟨2, 2, [((0, 0), 1), ((0, 1), 2), ((1, 1), 3)]⟩
     ⟨2, 2, [((0, 0), 4), ((1, 0), -2), ((1, 1), 1)]⟩ (by decide) (by decide)⟩

/-- C10: for well-formed operands with `A.cols = B.rows`, the dense
triple-loop multiplication of `src/code` and the sparse entry-driven
multiplication of `src/integral-file` return matrices with the same shape
and identical entry sets (the same lookup result at every coordinate). -/
theorem claim10_multiply_equivalent (A B : SparseMatrix) (hA : Wf A) (hB : Wf B)
    (h : A.cols = B.rows) :
    ∃ C D, Code.multiply A B = .ok C ∧ IntegralFile.multiply A B = .ok D ∧
      C.rows = D.rows ∧ C.cols = D.cols ∧
      ∀ p : Int × Int, dictFind C.data p = dictFind D.data p := by
  obtain ⟨C, hC, hCr, hCc, hCf⟩ := code_mul_char A B hA hB h
  obtain ⟨D, hD, hDr, hDc, hDf⟩ := if_mul_char A B hA hB h
  exact ⟨C, D, hC, hD, hCr.trans hDr.symm, hCc.trans hDc.symm,
    fun p => (hCf p).trans (hDf p).symm⟩

/-- Instantiation of the C10 theorem at a concrete `2 × 3` by `3 × 2`
product. -/
theorem claim10_multiply_equivalent_witness :
    Wf ⟨2, 3, [((0, 0), 2), ((0, 2), -1), ((1, 1), 5)]⟩ ∧
    Wf ⟨3, 2, [((0, 1), 3), ((2, 0), 4), ((2, 1), 6)]⟩ ∧
    (3 : Int) = 3 ∧
    (∃ C D,
      Code.multiply ⟨2, 3, [((0, 0), 2), ((0, 2), -1), ((1, 1), 5)]⟩
        ⟨3, 2, [((0, 1), 3), ((2, 0), 4), ((2, 1), 6)]⟩ = .ok C ∧
      IntegralFile.multiply ⟨2, 3, [((0, 0), 2), ((0, 2), -1), ((1, 1), 5)]⟩
        ⟨3, 2, [((0, 1), 3), ((2, 0), 4), ((2, 1), 6)]⟩ = .ok D ∧
      C.rows = D.rows ∧ C.cols = D.cols ∧
      ∀ p : Int × Int, dictFind C.data p = dictFind D.data p) :=
  ⟨by decide, by decide, by decide,
   claim10_multiply_equivalent ⟨2, 3, [((0, 0), 2), ((0, 2), -1), ((1, 1), 5)]⟩
     ⟨3, 2, [((0, 1), 3), ((2, 0), 4), ((2, 1), 6)]⟩
     (by decide) (by decide) (by decide)⟩

end SparseSpec

namespace SparseSpec

theorem digitChar_isDigit (d : Nat) (h : d < 10) : (digitChar d).isDigit = true := by
  interval_cases d <;> decide

theorem digitChar_toNat (d : Nat) (h : d < 10) : (digitChar d).toNat = 48 + d := by
  interval_cases d <;> decide

theorem natToStr_ne_nil (n : Nat) : natToStr n ≠ [] := by
  rw [natToStr]
  by_cases h : n < 10
  · rw [dif_pos h]
    exact List.cons_ne_nil _ _
  · rw [dif_neg h]
    exact fun hc => absurd (List.append_eq_nil.mp hc).2 (List.cons_ne_nil _ _)

theorem natToStr_digits (n : Nat) : ∀ c ∈ natToStr n, c.isDigit = true := by
  induction n using Nat.strong_induction_on with
  | _ n ih =>
    rw [natToStr]
    by_cases h : n < 10
    · rw [dif_pos h]
      intro c hc
      rw [List.mem_singleton] at hc
      rw [hc]
      exact digitChar_isDigit n h
    · rw [dif_neg h]
      intro c hc
      rcases List.mem_append.mp hc with hc | hc
      · exact ih (n / 10) (Nat.div_lt_self (by omega) (by omega)) c hc
      · rw [List.mem_singleton] at hc
        rw [hc]
        exact digitChar_isDigit _ (Nat.mod_lt _ (by omega))

theorem isDigit_ne (c d : Char) (h : c.isDigit = true) (hd : d.isDigit = false) :
    c ≠ d := by
  intro hc
  rw [hc, hd] at h
  exact Bool.noConfusion h

theorem isDigit_not_space (c : Char) (h : c.isDigit = true) : isPySpace c = false := by
  have h1 := isDigit_ne c ' ' h (by decide)
  have h2 := isDigit_ne c '\t' h (by decide)
  have h3 := isDigit_ne c '\n' h (by decide)
  have h4 := isDigit_ne c '\r' h (by decide)
  have h5 := isDigit_ne c '\x0b' h (by decide)
  have h6 := isDigit_ne c '\x0c' h (by decide)
  simp [isPySpace, h1, h2, h3, h4, h5, h6]

theorem intToStr_chars (x : Int) : ∀ c ∈ intToStr x, c.isDigit = true ∨ c = '-' := by
  rw [intToStr]
  by_cases h : x < 0
  · rw [if_pos h]
    intro c hc
    rcases List.mem_cons.mp hc with hc | hc
    · exact Or.inr hc
    · exact Or.inl (natToStr_digits _ c hc)
  · rw [if_neg h]
    intro c hc
    exact Or.inl (natToStr_digits _ c hc)

theorem intToStr_not_space (x : Int) : ∀ c ∈ intToStr x, isPySpace c = false := by
  intro c hc
  rcases intToStr_chars x c hc with h | h
  · exact isDigit_not_space c h
  · rw [h]
    decide

theorem intToStr_ne_char (x : Int) (d : Char) (hd : d.isDigit = false) (hm : d ≠ '-') :
    ∀ c ∈ intToStr x, c ≠ d := by
  intro c hc
  rcases intToStr_chars x c hc with h | h
  · exact isDigit_ne c d h hd
  · rw [h]
    exact fun hcc => hm hcc.symm

theorem dropWhile_eq_self_of_head (p : Char → Bool) (s : PyStr)
    (h : ∀ c, s.head? = some c → p c = false) : s.dropWhile p = s := by
  cases s with
  | nil => rfl
  | cons c cs =>
    rw [List.dropWhile_cons, h c rfl]
    simp

theorem stripPy_eq_self (s : PyStr)
    (hhead : ∀ c, s.head? = some c → isPySpace c = false)
    (hlast : ∀ c, s.getLast? = some c → isPySpace c = false) : stripPy s = s := by
  rw [stripPy, dropWhile_eq_self_of_head _ s hhead, dropWhile_eq_self_of_head, List.reverse_reverse]
  intro c hc
  rw [List.head?_reverse] at hc
  exact hlast c hc

theorem stripPy_all (s : PyStr) (h : ∀ c ∈ s, isPySpace c = false) : stripPy s = s := by
  apply stripPy_eq_self
  · intro c hc
    exact h c (by
      cases s with
      | nil => exact absurd hc (by simp)
      | cons x xs =>
        rw [List.head?_cons, Option.some_inj] at hc
        rw [← hc]
        exact List.mem_cons_self _ _)
  · intro c hc
    obtain ⟨hne, hce⟩ := List.mem_getLast?_eq_getLast (show c ∈ s.getLast? from hc)
    rw [hce]
    exact h _ (List.getLast_mem hne)

theorem stripPy_cons_space (c : Char) (hc : isPySpace c = true) (s : PyStr) :
    stripPy (c :: s) = stripPy s := by
  rw [stripPy, stripPy, List.dropWhile_cons, hc]
  simp

end SparseSpec

namespace SparseSpec

theorem digitsToNat_append_some (s t : PyStr) (a : Nat) :
    ∀ acc, digitsToNat acc s = some a → digitsToNat acc (s ++ t) = digitsToNat a t := by
  induction s with
  | nil =>
    intro acc h
    rw [digitsToNat] at h
    rw [List.nil_append, Option.some_inj.mp h]
  | cons c cs ih =>
    intro acc h
    rw [digitsToNat] at h
    by_cases hc : c.isDigit
    · rw [if_pos hc] at h
      rw [List.cons_append, digitsToNat, if_pos hc]
      exact ih _ h
    · rw [if_neg hc] at h
      exact absurd h (by simp)

theorem digitsToNat_run (n : Nat) :
    ∀ acc, digitsToNat acc (natToStr n)
      = some (acc * 10 ^ (natToStr n).length + n) := by
  induction n using Nat.strong_induction_on with
  | _ n ih =>
    intro acc
    rw [natToStr]
    by_cases h : n < 10
    · rw [dif_pos h]
      rw [digitsToNat, if_pos (digitChar_isDigit n h), digitsToNat, digitChar_toNat n h]
      congr 1
      simp only [List.length_singleton, pow_one]
      omega
    · rw [dif_neg h]
      have hlt : n / 10 < n := Nat.div_lt_self (by omega) (by decide)
      have hmod : n % 10 < 10 := Nat.mod_lt _ (by decide)
      rw [digitsToNat_append_some _ _ _ _ (ih (n / 10) hlt acc)]
      rw [digitsToNat, if_pos (digitChar_isDigit _ hmod), digitsToNat, digitChar_toNat _ hmod]
      congr 1
      rw [List.length_append, List.length_singleton]
      have h48 : 48 + n % 10 - 48 = n % 10 := by omega
      rw [h48]
      calc (acc * 10 ^ (natToStr (n / 10)).length + n / 10) * 10 + n % 10
          = acc * (10 ^ (natToStr (n / 10)).length * 10) + (10 * (n / 10) + n % 10) := by
            ring
        _ = acc * 10 ^ ((natToStr (n / 10)).length + 1) + n := by
            rw [← pow_succ, Nat.div_add_mod]

theorem pyIntCore_digits (s : PyStr) (hne : s ≠ []) (hd : ∀ c ∈ s, c.isDigit = true) :
    pyIntCore s = (digitsToNat 0 s).map (fun n => Int.ofNat n) := by
  cases s with
  | nil => exact absurd rfl hne
  | cons c cs =>
    have hc := hd c (List.mem_cons_self _ _)
    rw [pyIntCore, if_neg (isDigit_ne c '-' hc (by decide)),
      if_neg (isDigit_ne c '+' hc (by decide))]

theorem digitsToNat_natToStr (n : Nat) : digitsToNat 0 (natToStr n) = some n := by
  have h := digitsToNat_run n 0
  simpa using h

theorem pyInt_natToStr (n : Nat) : pyInt (natToStr n) = some (n : Int) := by
  rw [pyInt, stripPy_all _ (fun c hc => isDigit_not_space c (natToStr_digits n c hc)),
    pyIntCore_digits _ (natToStr_ne_nil n) (natToStr_digits n), digitsToNat_natToStr,
    Option.map_some']
  rfl

theorem pyInt_intToStr (x : Int) : pyInt (intToStr x) = some x := by
  rw [pyInt, stripPy_all _ (intToStr_not_space x), intToStr]
  by_cases h : x < 0
  · rw [if_pos h, pyIntCore, if_pos rfl, if_neg (natToStr_ne_nil _), digitsToNat_natToStr,
      Option.map_some']
    have hx : Int.ofNat (-x).toNat = -x := Int.toNat_of_nonneg (by omega)
    rw [hx, neg_neg]
  · rw [if_neg h, pyIntCore_digits _ (natToStr_ne_nil _) (natToStr_digits _),
      digitsToNat_natToStr, Option.map_some']
    have hx : Int.ofNat x.toNat = x := Int.toNat_of_nonneg (by omega)
    rw [hx]

theorem pyInt_cons_space (c : Char) (hc : isPySpace c = true) (s : PyStr) :
    pyInt (c :: s) = pyInt s := by
  rw [pyInt, stripPy_cons_space c hc, pyInt]

end SparseSpec

namespace SparseSpec

theorem splitOnChar_not_mem (c : Char) (s : PyStr) (h : c ∉ s) : splitOnChar c s = [s] := by
  induction s with
  | nil => rfl
  | cons x xs ih =>
    rw [splitOnChar]
    have hx : ¬ x = c := fun hc => h (by rw [← hc]; exact List.mem_cons_self _ _)
    rw [if_neg hx, ih (fun hm => h (List.mem_cons_of_mem _ hm))]

theorem splitOnChar_append (c : Char) (l r : PyStr) (h : c ∉ l) :
    splitOnChar c (l ++ c :: r) = l :: splitOnChar c r := by
  induction l with
  | nil =>
    rw [List.nil_append, splitOnChar, if_pos rfl]
  | cons x xs ih =>
    rw [List.cons_append, splitOnChar]
    have hx : ¬ x = c := fun hc => h (by rw [← hc]; exact List.mem_cons_self _ _)
    rw [if_neg hx, ih (fun hm => h (List.mem_cons_of_mem _ hm))]

theorem split_join_lines (lines : List PyStr) (h : ∀ l ∈ lines, '\n' ∉ l) :
    splitOnChar '\n' ((lines.map (fun l => l ++ ['\n'])).flatten) = lines ++ [[]] := by
  induction lines with
  | nil => rfl
  | cons l rest ih =>
    rw [List.map_cons, List.flatten_cons]
    have hform : (l ++ ['\n']) ++ (rest.map (fun s => s ++ ['\n'])).flatten
        = l ++ '\n' :: (rest.map (fun s => s ++ ['\n'])).flatten := by
      simp [List.append_assoc]
    rw [hform, splitOnChar_append _ _ _ (h l (List.mem_cons_self _ _)),
      ih (fun s hs => h s (List.mem_cons_of_mem _ hs))]
    rfl

end SparseSpec

namespace SparseSpec

theorem intToStr_ne_nil (x : Int) : intToStr x ≠ [] := by
  rw [intToStr]
  by_cases h : x < 0
  · rw [if_pos h]
    exact List.cons_ne_nil _ _
  · rw [if_neg h]
    exact natToStr_ne_nil _

theorem newline_not_mem_entryLine (e : (Int × Int) × Int) : '\n' ∉ entryLine e := by
  intro hm
  rw [entryLine] at hm
  simp only [List.mem_cons, List.mem_append, List.mem_singleton] at hm
  rcases hm with h | h
  · exact absurd h (by decide)
  · rcases h with ((((h | h) | h) | h) | h) | h
    · exact (intToStr_ne_char e.1.1 '\n' (by decide) (by decide) _ h) rfl
    · exact absurd h (by decide)
    · exact (intToStr_ne_char e.1.2 '\n' (by decide) (by decide) _ h) rfl
    · exact absurd h (by decide)
    · exact (intToStr_ne_char e.2 '\n' (by decide) (by decide) _ h) rfl
    · exact absurd h (by decide)

theorem stripPy_entryLine (e : (Int × Int) × Int) : stripPy (entryLine e) = entryLine e := by
  apply stripPy_eq_self
  · intro a ha
    rw [entryLine, List.head?_cons, Option.some_inj] at ha
    rw [← ha]
    decide
  · intro a ha
    have hl : (entryLine e).getLast? = some ')' := by
      rw [entryLine, show ('(' :: (intToStr e.1.1 ++ ", ".toList ++ intToStr e.1.2
          ++ ", ".toList ++ intToStr e.2 ++ [')']))
        = ('(' :: (intToStr e.1.1 ++ ", ".toList ++ intToStr e.1.2
          ++ ", ".toList ++ intToStr e.2)) ++ [')'] from by simp [List.append_assoc]]
      exact List.getLast?_concat _
    rw [hl, Option.some_inj] at ha
    rw [← ha]
    decide

theorem stripPy_header (w : PyStr) (x : Int) (c0 : Char) (rest : PyStr)
    (hw : w = c0 :: rest) (hc0 : isPySpace c0 = false) :
    stripPy (w ++ intToStr x) = w ++ intToStr x := by
  apply stripPy_eq_self
  · intro a ha
    rw [hw, List.cons_append, List.head?_cons, Option.some_inj] at ha
    rw [← ha]
    exact hc0
  · intro a ha
    rw [List.getLast?_append_of_ne_nil _ (intToStr_ne_nil x)] at ha
    obtain ⟨hne, hce⟩ := List.mem_getLast?_eq_getLast (show a ∈ (intToStr x).getLast? from ha)
    rw [hce]
    exact intToStr_not_space x _ (List.getLast_mem hne)

theorem newline_not_mem_header (w : PyStr) (x : Int) (hw : '\n' ∉ w) :
    '\n' ∉ w ++ intToStr x := by
  intro hm
  rcases List.mem_append.mp hm with hm | hm
  · exact hw hm
  · exact (intToStr_ne_char x '\n' (by decide) (by decide) _ hm) rfl

theorem pyLines_serialize (m : SparseMatrix) :
    pyLines (serializeText m)
      = ("rows=".toList ++ intToStr m.rows)
        :: ("cols=".toList ++ intToStr m.cols)
        :: m.data.map entryLine := by
  have hsplit : splitOnChar '\n' (serializeText m)
      = ("rows=".toList ++ intToStr m.rows)
        :: (("cols=".toList ++ intToStr m.cols)
        :: ((m.data.map entryLine) ++ [[]])) := by
    rw [serializeText]
    have hform : "rows=".toList ++ intToStr m.rows ++ ['\n'] ++ "cols=".toList
        ++ intToStr m.cols ++ ['\n'] ++ (m.data.map (fun e => entryLine e ++ ['\n'])).flatten
        = ("rows=".toList ++ intToStr m.rows)
          ++ '\n' :: (("cols=".toList ++ intToStr m.cols)
          ++ '\n' :: (m.data.map (fun e => entryLine e ++ ['\n'])).flatten) := by
      simp [List.append_assoc]
    rw [hform,
      splitOnChar_append _ _ _ (newline_not_mem_header _ m.rows (by decide)),
      splitOnChar_append _ _ _ (newline_not_mem_header _ m.cols (by decide))]
    have hmapform : m.data.map (fun e => entryLine e ++ ['\n'])
        = (m.data.map entryLine).map (fun l => l ++ ['\n']) := by
      rw [List.map_map]
      rfl
    rw [hmapform, split_join_lines _ (by
      intro l hl
      obtain ⟨e, _, rfl⟩ := List.mem_map.mp hl
      exact newline_not_mem_entryLine e)]
  rw [pyLines, hsplit, List.map_cons, List.map_cons, List.map_append,
    stripPy_header "rows=".toList m.rows 'r' _ rfl (by decide),
    stripPy_header "cols=".toList m.cols 'c' _ rfl (by decide)]
  have hmapent : (m.data.map entryLine).map stripPy = m.data.map entryLine := by
    rw [List.map_map]
    apply List.map_congr_left
    intro e _
    exact stripPy_entryLine e
  rw [hmapent]
  have hstripnil : List.map stripPy [([] : PyStr)] = [([] : PyStr)] := rfl
  rw [hstripnil]
  rw [List.filter_cons, List.filter_cons, List.filter_append]
  rw [if_pos (by simp), if_pos (by simp)]
  have hentf : (m.data.map entryLine).filter (fun l => l ≠ []) = m.data.map entryLine := by
    rw [List.filter_eq_self]
    intro a ha
    obtain ⟨e, _, rfl⟩ := List.mem_map.mp ha
    rw [entryLine]
    simp
  rw [hentf]
  have hnilf : List.filter (fun l => l ≠ []) [([] : PyStr)] = [] := rfl
  rw [hnilf, List.append_nil]

end SparseSpec

namespace SparseSpec

theorem entryLine_head (e : (Int × Int) × Int) : (entryLine e).head? = some '(' := rfl

theorem entryLine_getLast (e : (Int × Int) × Int) :
    (entryLine e).getLast? = some ')' := by
  rw [entryLine, show ('(' :: (intToStr e.1.1 ++ ", ".toList ++ intToStr e.1.2
      ++ ", ".toList ++ intToStr e.2 ++ [')']))
    = ('(' :: (intToStr e.1.1 ++ ", ".toList ++ intToStr e.1.2
      ++ ", ".toList ++ intToStr e.2)) ++ [')'] from by simp [List.append_assoc]]
  exact List.getLast?_concat _

theorem entryLine_fields (e : (Int × Int) × Int) :
    splitOnChar ',' ((entryLine e).drop 1).dropLast
      = [intToStr e.1.1, ' ' :: intToStr e.1.2, ' ' :: intToStr e.2] := by
  have hdrop : ((entryLine e).drop 1).dropLast
      = intToStr e.1.1 ++ ", ".toList ++ intToStr e.1.2 ++ ", ".toList ++ intToStr e.2 := by
    rw [entryLine, List.drop_one, List.tail_cons,
      show intToStr e.1.1 ++ ", ".toList ++ intToStr e.1.2 ++ ", ".toList
          ++ intToStr e.2 ++ [')']
        = (intToStr e.1.1 ++ ", ".toList ++ intToStr e.1.2 ++ ", ".toList
          ++ intToStr e.2) ++ [')'] from by simp [List.append_assoc],
      List.dropLast_concat]
  rw [hdrop]
  have hform : intToStr e.1.1 ++ ", ".toList ++ intToStr e.1.2 ++ ", ".toList ++ intToStr e.2
      = intToStr e.1.1 ++ ',' :: ((' ' :: intToStr e.1.2) ++ ',' :: (' ' :: intToStr e.2)) := by
    simp [List.append_assoc]
  rw [hform,
    splitOnChar_append _ _ _ (fun hm => (intToStr_ne_char e.1.1 ',' (by decide) (by decide) _ hm) rfl),
    splitOnChar_append _ _ _ (by
      intro hm
      rcases List.mem_cons.mp hm with hm | hm
      · exact absurd hm (by decide)
      · exact (intToStr_ne_char e.1.2 ',' (by decide) (by decide) _ hm) rfl),
    splitOnChar_not_mem _ _ (by
      intro hm
      rcases List.mem_cons.mp hm with hm | hm
      · exact absurd hm (by decide)
      · exact (intToStr_ne_char e.2 ',' (by decide) (by decide) _ hm) rfl)]

theorem dictFind_append (d1 d2 : Dict) (k : Int × Int) :
    dictFind (d1 ++ d2) k
      = match dictFind d1 k with
        | some v => some v
        | none => dictFind d2 k := by
  induction d1 with
  | nil => rfl
  | cons e rest ih =>
    rw [List.cons_append, dictFind, dictFind]
    by_cases he : e.1 = k
    · rw [if_pos he, if_pos he]
    · rw [if_neg he, if_neg he, ih]

theorem dictInsert_absent (d : Dict) (k : Int × Int) (v : Int)
    (h : dictMem d k = false) : dictInsert d k v = d ++ [(k, v)] := by
  induction d with
  | nil => rfl
  | cons e rest ih =>
    rw [dictInsert]
    have hne : ¬ e.1 = k := by
      intro hc
      rw [dictMem, dictFind, if_pos hc] at h
      simp at h
    have hrest : dictMem rest k = false := by
      rw [dictMem, dictFind, if_neg hne] at h
      exact h
    rw [if_neg hne, ih hrest, List.cons_append]

theorem dictMem_append_single (d : Dict) (f : (Int × Int) × Int) (k : Int × Int)
    (h1 : dictMem d k = false) (h2 : f.1 ≠ k) : dictMem (d ++ [f]) k = false := by
  rw [dictMem, dictFind_append]
  rw [dictMem] at h1
  rcases hd : dictFind d k with _ | v
  · rw [dictFind, if_neg h2]
    rfl
  · rw [hd] at h1
    simp at h1

theorem intToStr_nonneg (x : Int) (h : 0 ≤ x) : intToStr x = natToStr x.toNat := by
  rw [intToStr, if_neg (by omega)]

theorem pyIsDigit_natToStr (n : Nat) : pyIsDigit (natToStr n) = true := by
  rw [pyIsDigit]
  have h1 : (natToStr n).isEmpty = false := by
    cases hs : natToStr n with
    | nil => exact absurd hs (natToStr_ne_nil n)
    | cons a b => rfl
  rw [h1]
  simp [List.all_eq_true]
  exact natToStr_digits n

theorem dropWhile_minus_natToStr (n : Nat) :
    (natToStr n).dropWhile (fun ch => ch = '-') = natToStr n := by
  apply dropWhile_eq_self_of_head
  intro c hc
  have hm : c ∈ natToStr n := by
    cases hs : natToStr n with
    | nil => exact absurd hs (natToStr_ne_nil n)
    | cons a b =>
      rw [hs, List.head?_cons, Option.some_inj] at hc
      rw [← hc]
      exact List.mem_cons_self _ _
  have hd := natToStr_digits n c hm
  simp [isDigit_ne c '-' hd (by decide)]

end SparseSpec

namespace SparseSpec

theorem code_readEntries_roundtrip (rows cols : Int) (l : Dict) :
    (∀ e ∈ l, 0 ≤ e.1.1 ∧ e.1.1 < rows ∧ 0 ≤ e.1.2 ∧ e.1.2 < cols ∧ e.2 ≠ 0) →
    (l.map (fun e => e.1)).Nodup →
    ∀ m : SparseMatrix, (∀ e ∈ l, dictMem m.data e.1 = false) →
    Code.readEntries rows cols m (l.map entryLine)
      = .ok ⟨m.rows, m.cols, m.data ++ l⟩ := by
  induction l with
  | nil =>
    intro _ _ m _
    rw [List.map_nil, Code.readEntries, List.append_nil]
  | cons e rest ih =>
    intro hb hnd m habs
    rw [List.map_cons, List.nodup_cons] at hnd
    have hbe := hb e (List.mem_cons_self _ _)
    rw [List.map_cons, Code.readEntries]
    rw [if_neg (by
      rw [entryLine_head, entryLine_getLast]
      simp)]
    rw [entryLine_fields]
    dsimp only
    rw [pyInt_intToStr, pyInt_cons_space ' ' (by decide), pyInt_intToStr,
      pyInt_cons_space ' ' (by decide), pyInt_intToStr]
    dsimp only
    rw [if_neg (by omega)]
    have hset : Code.setElement m e.1.1 e.1.2 e.2
        = ⟨m.rows, m.cols, m.data ++ [e]⟩ := by
      rw [Code.setElement, if_neg hbe.2.2.2.2]
      have hins : dictInsert m.data (e.1.1, e.1.2) e.2
          = m.data ++ [((e.1.1, e.1.2), e.2)] :=
        dictInsert_absent _ _ _ (habs e (List.mem_cons_self _ _))
      rw [hins]
    rw [hset]
    rw [ih (fun f hf => hb f (List.mem_cons_of_mem _ hf)) hnd.2
      ⟨m.rows, m.cols, m.data ++ [e]⟩ (by
        intro f hf
        have hef : e.1 ≠ f.1 := by
          intro hc
          exact hnd.1 (hc ▸ List.mem_map_of_mem _ hf)
        exact dictMem_append_single m.data e f.1
          (habs f (List.mem_cons_of_mem _ hf)) hef)]
    simp [List.append_assoc]

theorem if_loadEntries_roundtrip (l : Dict) :
    (∀ e ∈ l, 0 ≤ e.1.1 ∧ 0 ≤ e.1.2) →
    (l.map (fun e => e.1)).Nodup →
    ∀ data : Dict, (∀ e ∈ l, dictMem data e.1 = false) →
    IntegralFile.loadEntries data (l.map entryLine) = .ok (data ++ l) := by
  induction l with
  | nil =>
    intro _ _ data _
    rw [List.map_nil, IntegralFile.loadEntries, List.append_nil]
  | cons e rest ih =>
    intro hb hnd data habs
    rw [List.map_cons, List.nodup_cons] at hnd
    have hbe := hb e (List.mem_cons_self _ _)
    rw [List.map_cons, IntegralFile.loadEntries]
    rw [if_neg (by
      rw [entryLine_head, entryLine_getLast]
      simp)]
    rw [entryLine_fields]
    dsimp only
    have hstrip1 : stripPy (intToStr e.1.1) = intToStr e.1.1 :=
      stripPy_all _ (intToStr_not_space _)
    have hstrip2 : stripPy (' ' :: intToStr e.1.2) = intToStr e.1.2 := by
      rw [stripPy_cons_space ' ' (by decide)]
      exact stripPy_all _ (intToStr_not_space _)
    have hstrip3 : stripPy (' ' :: intToStr e.2) = intToStr e.2 := by
      rw [stripPy_cons_space ' ' (by decide)]
      exact stripPy_all _ (intToStr_not_space _)
    rw [hstrip1, hstrip2, hstrip3]
    have hdig1 : pyIsDigit (intToStr e.1.1) = true := by
      rw [intToStr_nonneg _ hbe.1]
      exact pyIsDigit_natToStr _
    have hdig2 : pyIsDigit (intToStr e.1.2) = true := by
      rw [intToStr_nonneg _ hbe.2]
      exact pyIsDigit_natToStr _
    have hdig3 : pyIsDigit ((intToStr e.2).dropWhile (fun ch => ch = '-')) = true := by
      rw [intToStr]
      by_cases hv : e.2 < 0
      · rw [if_pos hv, List.dropWhile_cons, if_pos (by decide), dropWhile_minus_natToStr]
        exact pyIsDigit_natToStr _
      · rw [if_neg hv, dropWhile_minus_natToStr]
        exact pyIsDigit_natToStr _
    rw [if_neg (by rw [hdig1, hdig2]; simp), if_neg (by rw [hdig3]; simp)]
    rw [pyInt_intToStr, pyInt_intToStr, pyInt_intToStr]
    dsimp only
    have hins : dictInsert data (e.1.1, e.1.2) e.2 = data ++ [((e.1.1, e.1.2), e.2)] :=
      dictInsert_absent _ _ _ (habs e (List.mem_cons_self _ _))
    rw [hins]
    rw [ih (fun f hf => ⟨(hb f (List.mem_cons_of_mem _ hf)).1,
        (hb f (List.mem_cons_of_mem _ hf)).2⟩) hnd.2
      (data ++ [((e.1.1, e.1.2), e.2)]) (by
        intro f hf
        have hef : e.1 ≠ f.1 := by
          intro hc
          exact hnd.1 (hc ▸ List.mem_map_of_mem _ hf)
        exact dictMem_append_single data e f.1
          (habs f (List.mem_cons_of_mem _ hf)) hef)]
    simp [List.append_assoc]

end SparseSpec

namespace SparseSpec

theorem splitOnChar_rows_header (m : SparseMatrix) :
    splitOnChar '=' ("rows=".toList ++ intToStr m.rows)
      = ["rows".toList, intToStr m.rows] := by
  rw [show "rows=".toList ++ intToStr m.rows
      = "rows".toList ++ '=' :: intToStr m.rows from rfl]
  rw [splitOnChar_append _ _ _ (by decide),
    splitOnChar_not_mem _ _
      (fun hm' => (intToStr_ne_char m.rows '=' (by decide) (by decide) _ hm') rfl)]

theorem splitOnChar_cols_header (m : SparseMatrix) :
    splitOnChar '=' ("cols=".toList ++ intToStr m.cols)
      = ["cols".toList, intToStr m.cols] := by
  rw [show "cols=".toList ++ intToStr m.cols
      = "cols".toList ++ '=' :: intToStr m.cols from rfl]
  rw [splitOnChar_append _ _ _ (by decide),
    splitOnChar_not_mem _ _
      (fun hm' => (intToStr_ne_char m.cols '=' (by decide) (by decide) _ hm') rfl)]

/-- C6: serializing a well-formed matrix and parsing the text back yields
the identical matrix — same `rows`, `cols` and entry set — in both
variants (`writeToFile`/`readFile` and `save_to_file`/`load_from_file`);
the statement quantifies over every well-formed matrix, hence over every
order in which the writer can emit the entry lines. -/
theorem claim6_roundtrip (m : SparseMatrix) (hm : Wf m) :
    Code.readFile (Code.writeText m) = .ok m ∧
    IntegralFile.load (IntegralFile.saveText m) = .ok m := by
  have hlines := pyLines_serialize m
  constructor
  · rw [Code.writeText, Code.readFile]
    rw [hlines]
    rw [if_neg (by simp [List.length_cons])]
    dsimp only
    rw [splitOnChar_rows_header, splitOnChar_cols_header]
    dsimp only
    rw [pyInt_intToStr, pyInt_intToStr]
    dsimp only
    rw [code_readEntries_roundtrip m.rows m.cols m.data
      (fun e he => hm.2.2.1 e he) hm.2.2.2 ⟨m.rows, m.cols, []⟩ (fun e _ => rfl)]
    rw [List.nil_append]
  · rw [IntegralFile.saveText, IntegralFile.load]
    rw [hlines]
    dsimp only
    rw [splitOnChar_rows_header, splitOnChar_cols_header]
    dsimp only [List.get?]
    rw [stripPy_all _ (intToStr_not_space m.rows), stripPy_all _ (intToStr_not_space m.cols),
      pyInt_intToStr, pyInt_intToStr]
    dsimp only
    rw [if_loadEntries_roundtrip m.data
      (fun e he => ⟨(hm.2.2.1 e he).1, (hm.2.2.1 e he).2.2.1⟩) hm.2.2.2
      [] (fun e _ => rfl)]
    rw [List.nil_append]

/-- Instantiation of the C6 theorem at a concrete `2 × 3` matrix. -/
theorem claim6_roundtrip_witness :
    Wf ⟨2, 3, [((0, 1), 5), ((1, 2), -7)]⟩ ∧
    (Code.readFile (Code.writeText ⟨2, 3, [((0, 1), 5), ((1, 2), -7)]⟩)
        = .ok ⟨2, 3, [((0, 1), 5), ((1, 2), -7)]⟩ ∧
     IntegralFile.load (IntegralFile.saveText ⟨2, 3, [((0, 1), 5), ((1, 2), -7)]⟩)
        = .ok ⟨2, 3, [((0, 1), 5), ((1, 2), -7)]⟩) :=
  ⟨by decide, claim6_roundtrip ⟨2, 3, [((0, 1), 5), ((1, 2), -7)]⟩ (by decide)⟩

end SparseSpec
